import Mathlib

set_option maxHeartbeats 4000000

namespace SlateV

/-! Shallow embedding of the SLATE tile runtime fragments under verification:
the pivot engine (internal_swap.cc), the QR driver task graph (geqrf.cc),
the trapezoidal set kernel (device_tzset.hip.cc / internal_tzset.cc),
the triangle-triangle reduction (internal_ttmqr.cc), the banded Cholesky
solve driver (pbtrs.cc), and the non-uniform tile-size partition. -/

/-- Pivot entry: (tile index, element offset within that tile), as slate::Pivot. -/
structure Pivot where
  tileIndex : Nat
  elementOffset : Nat
  deriving DecidableEq, Repr

/-- Direction of pivoting, slate::Direction. -/
inductive Direction where
  | Forward
  | Backward
  deriving DecidableEq, Repr

/-- Target dispatch backends, slate::Target. -/
inductive Target where
  | HostTask
  | HostNest
  | HostBatch
  | Devices
  deriving DecidableEq, Repr

/-- Tile layout, slate::Layout (value-irrelevant for host permuteRows). -/
inductive Layout where
  | ColMajor
  | RowMajor
  deriving DecidableEq, Repr

/-! ## permuteRows (internal_swap.cc, Target::HostTask, lines 195-270)

Within one block-column j, a row of the matrix is addressed by the pair
(tile index, element offset).  The state of a block-column maps each such
address to the row's content (the nb elements of that row in that
block-column), abstracted as a value of type α.  The pivot loop swaps
row (0, i) with row (pivot[i].tileIndex, pivot[i].elementOffset) whenever
the code's guard `pivot[i].tileIndex() > 0 || pivot[i].elementOffset() > i`
holds; the guard is exactly the condition under which the HostTask code
performs a local or paired-remote swap. -/

/-- State of one block-column: (tileIndex, elementOffset) to row content. -/
def ColSt (α : Type) : Type := Nat × Nat → α

/-- Exchange the contents at two row addresses (effect of swapLocalRow /
the paired swapRemoteRow calls). -/
def swapKeys {α : Type} (s : ColSt α) (a b : Nat × Nat) : ColSt α :=
  fun x => if x = a then s b else if x = b then s a else s x

/-- One iteration of the pivot loop of permuteRows<HostTask> at pivot index i:
swap row (0, i) with the pivot row when the guard
`tileIndex > 0 || elementOffset > i` holds, else do nothing. -/
def applyPivotStep {α : Type} (pivot : List Pivot) (s : ColSt α) (i : Nat) : ColSt α :=
  match pivot[i]? with
  | some p =>
      if 0 < p.tileIndex ∨ i < p.elementOffset then
        swapKeys s (0, i) (p.tileIndex, p.elementOffset)
      else s
  | none => s

/-- Descending index list k-1, k-2, ..., 0, as produced by the loop
`begin = pivot.size()-1; end = -1; inc = -1`. -/
def pivotIndicesB : Nat → List Nat
  | 0 => []
  | k+1 => k :: pivotIndicesB k

/-- Index order of the pivot loop: Forward visits 0, ..., k-1
(`begin = 0; end = pivot.size(); inc = 1`), Backward visits k-1, ..., 0. -/
def pivotIndices (d : Direction) (k : Nat) : List Nat :=
  match d with
  | .Forward => List.range k
  | .Backward => pivotIndicesB k

/-- Effect of the pivot loop of permuteRows<HostTask> on one block-column. -/
def permuteRowsCol {α : Type} (d : Direction) (pivot : List Pivot) (s : ColSt α) : ColSt α :=
  (pivotIndices d pivot.length).foldl (applyPivotStep pivot) s

/-- Global effect of permuteRows<HostTask> on the matrix: the same pivot
sequence is applied to every block-column j < nt (outer loop over j). -/
def permuteRowsHostTask {α : Type} (d : Direction) (pivot : List Pivot) (nt : Nat)
    (s : Nat → ColSt α) : Nat → ColSt α :=
  fun j => if j < nt then permuteRowsCol d pivot (s j) else s j

/-- Target dispatch of permuteRows (internal_swap.cc lines 272-316):
HostNest and HostBatch forward to the HostTask implementation; the layout,
priority, tag and queue-index arguments do not affect the resulting state. -/
def permuteRowsTarget {α : Type} (target : Target) (d : Direction) (pivot : List Pivot)
    (nt : Nat) (_layout : Layout) (_priority _tag _queueIndex : Nat)
    (s : Nat → ColSt α) : Nat → ColSt α :=
  match target with
  | .HostTask => permuteRowsHostTask d pivot nt s
  | .HostNest => permuteRowsHostTask d pivot nt s
  | .HostBatch => permuteRowsHostTask d pivot nt s
  | .Devices => permuteRowsHostTask d pivot nt s

/-! ## permuteRows per-rank dispatch (internal_swap.cc lines 225-267)

For a fixed block-column j, let tileRank t be the MPI rank owning tile
(t, j).  Each rank executes the pivot-loop body; the action it takes for
pivot index i is transcribed below. -/

/-- Action one MPI rank takes for one pivot entry of permuteRows. -/
inductive RowSwapAct where
  | noAct
  | localSwap (i : Nat) (p : Pivot)
  | remoteSwap (tile off partner : Nat)
  deriving DecidableEq, Repr

/-- Per-rank body of the pivot loop of permuteRows<HostTask>
(internal_swap.cc lines 225-267), for block-column j with tile ownership
tileRank, executing rank myRank, pivot entry p at loop index i. -/
def perRankAction (tileRank : Nat → Nat) (myRank : Nat) (p : Pivot) (i : Nat) : RowSwapAct :=
  let pivotRank := tileRank p.tileIndex
  let rootRank := tileRank 0
  if pivotRank = myRank then
    if rootRank = myRank then
      if 0 < p.tileIndex ∨ i < p.elementOffset then
        .localSwap i p
      else
        .noAct
    else
      .remoteSwap p.tileIndex p.elementOffset rootRank
  else
    if rootRank = myRank then
      .remoteSwap 0 i pivotRank
    else
      .noAct

/-- Whether any rank performs a row swap for pivot entry p at loop index i
(only the diagonal owner and the pivot owner can act). -/
def rowSwapPerformed (tileRank : Nat → Nat) (p : Pivot) (i : Nat) : Bool :=
  decide (perRankAction tileRank (tileRank 0) p i ≠ .noAct) ||
  decide (perRankAction tileRank (tileRank p.tileIndex) p i ≠ .noAct)

/-! ## geqrf option handling and device queue allocation (geqrf.cc lines 42-43, 68-73) -/

/-- Keys of the options map used by geqrf. -/
inductive OptionKey where
  | Lookahead
  | InnerBlocking
  | MaxPanelThreads
  | TargetKey
  deriving DecidableEq, Repr

/-- Options map passed to drivers (values modelled as integers). -/
abbrev Options : Type := List (OptionKey × Int)

/-- get_option: value stored under the key, or the given default. -/
def get_option (opts : Options) (key : OptionKey) (defaultValue : Int) : Int :=
  match opts.find? (fun kv => decide (kv.1 = key)) with
  | some kv => kv.2
  | none => defaultValue

/-- Record of the option values impl::geqrf reads and of the num_queues
argument of each allocateBatchArrays call it makes (one for A, one for the
workspace W, only under Target::Devices). -/
structure GeqrfSetup where
  lookahead : Int
  ib : Int
  batchArrayQueues : List Int
  deriving DecidableEq, Repr

/-- Option handling and batch-array allocation of impl::geqrf:
lookahead defaults to 1, inner blocking to 16; under Target::Devices both A
and W get batch arrays with num_queues = 3 + lookahead. -/
def geqrfSetup (target : Target) (opts : Options) : GeqrfSetup :=
  let lookahead := get_option opts .Lookahead 1
  let ib := get_option opts .InnerBlocking 16
  { lookahead := lookahead
    ib := ib
    batchArrayQueues :=
      if target = .Devices then
        let num_queues := 3 + lookahead
        [num_queues, num_queues]
      else [] }

/-! ## Non-uniform tile sizes (ex13_non_uniform_block_size.cc lines 56-65) -/

/-- Modelled from the spec: the Matrix constructor taking a user-supplied
tile-size function tileNb is not under src/ (it lives in BaseMatrix.hh); per
the spec, the tile widths are given by the user function subject to the sum
constraint over the matrix dimension, and the example asserts that the
effective width of tile j is the user value clipped to the remaining
columns.  This helper consumes the remaining width rem greedily, tile by
tile, with fuel bounding the recursion. -/
def effNbGo (f : Nat → Nat) : Nat → Nat → Nat → List Nat
  | 0, _, _ => []
  | fuel+1, j, rem =>
    if rem = 0 then []
    else min (f j) rem :: effNbGo f fuel (j+1) (rem - min (f j) rem)

/-- Modelled from the spec: the list of effective tile widths of an N-column
matrix built with the user tile-size function f. -/
def tileNbList (f : Nat → Nat) (N : Nat) : List Nat :=
  effNbGo f N 0 N

/-! ## pbtrs (pbtrs.cc lines 52-77) -/

/-- Storage side of a triangular or Hermitian matrix, slate::Uplo. -/
inductive Uplo where
  | Lower
  | Upper
  deriving DecidableEq, Repr

/-- Unit or non-unit diagonal, slate::Diag. -/
inductive Diag where
  | NonUnit
  | UnitDiag
  deriving DecidableEq, Repr

/-- Side of a solve or multiply, slate::Side. -/
inductive Side where
  | Left
  | Right
  deriving DecidableEq, Repr

/-- Transposition op, slate::Op. -/
inductive Op where
  | NoTrans
  | Trans
  | ConjTrans
  deriving DecidableEq, Repr

/-- Hermitian band matrix view: storage side plus element map. -/
structure HermBand (α : Type) where
  uplo : Uplo
  mat : Nat → Nat → α

/-- Triangular band matrix view: diagonal kind, storage side, element map. -/
structure TriBand (α : Type) where
  diag : Diag
  uplo : Uplo
  mat : Nat → Nat → α

/-- Flip a storage side. -/
def Uplo.flip : Uplo → Uplo
  | .Lower => .Upper
  | .Upper => .Lower

/-- conj_transpose of a Hermitian band view (cj is elementwise conjugation). -/
def hbConjTranspose {α : Type} (cj : α → α) (A : HermBand α) : HermBand α :=
  { uplo := A.uplo.flip, mat := fun i j => cj (A.mat j i) }

/-- conj_transpose of a triangular band view. -/
def tbConjTranspose {α : Type} (cj : α → α) (L : TriBand α) : TriBand α :=
  { diag := L.diag, uplo := L.uplo.flip, mat := fun i j => cj (L.mat j i) }

/-- Result of pbtrs: the factor matrix and the right-hand-side matrix. -/
structure PbtrsResult (α : Type) where
  A : HermBand α
  B : Nat → Nat → α

/-- pbtrs (pbtrs.cc lines 52-77).  The triangular band solve tbsm is an
external collaborator whose source is not under src/; it is modelled from
the spec as a black-box callable that consumes the triangular factor and the
right-hand side and returns only the overwritten right-hand side.  pbtrs
takes a shallow copy of A, conj-transposes it when upper-stored, forms the
non-unit lower triangular factor L, and applies tbsm with L and then with
conj_transpose(L), overwriting B. -/
def pbtrs {α : Type} (cj : α → α) (one : α)
    (tbsm : Side → α → TriBand α → (Nat → Nat → α) → (Nat → Nat → α))
    (A : HermBand α) (B : Nat → Nat → α) : PbtrsResult α :=
  let A2 := if A.uplo = .Upper then hbConjTranspose cj A else A
  let L : TriBand α := { diag := .NonUnit, uplo := A2.uplo, mat := A2.mat }
  let LT := tbConjTranspose cj L
  let B1 := tbsm .Left one L B
  let B2 := tbsm .Left one LT B1
  { A := A, B := B2 }

/-! ## Trapezoidal set kernel (device_tzset.hip.cc lines 24-45)

tzset_func runs one thread per row; the threads of a block partition the rows
0..m-1, each row handled exactly once, and rows write disjoint memory, so the
sequential fold below has the same effect. -/

/-- Write one element of linear memory. -/
def memWrite {α : Type} (A : Nat → α) (p : Nat) (v : α) : Nat → α :=
  fun q => if q = p then v else A q

/-- Column indices visited for row i of tzset_func: Lower runs
j = 0 while j <= i and j < n; Upper runs j = n-1 down to i. -/
def tzsetRowCols (uplo : Uplo) (i n : Nat) : List Nat :=
  match uplo with
  | .Lower => List.range (min (i+1) n)
  | .Upper => (List.range' i (n - i)).reverse

/-- One row of tzset_func: for each visited column j, write
rowA[j*lda], i.e. A[i + j*lda], to diag_value if i == j else offdiag_value. -/
def tzsetRow {α : Type} (uplo : Uplo) (n : Nat) (offdiag_value diag_value : α)
    (lda i : Nat) (A : Nat → α) : Nat → α :=
  (tzsetRowCols uplo i n).foldl
    (fun B j => memWrite B (i + j * lda) (if i = j then diag_value else offdiag_value)) A

/-- tzset_func: every row i < m is handled once. -/
def tzset_func {α : Type} (uplo : Uplo) (m n : Nat) (offdiag_value diag_value : α)
    (lda : Nat) (A : Nat → α) : Nat → α :=
  (List.range m).foldl
    (fun B i => tzsetRow uplo n offdiag_value diag_value lda i B) A

/-- The trapezoid addressed by tzset: j <= i for Lower, i <= j for Upper. -/
def inTrapezoid (uplo : Uplo) (i j : Nat) : Prop :=
  match uplo with
  | .Lower => j ≤ i
  | .Upper => i ≤ j

instance instDecInTrapezoid (uplo : Uplo) (i j : Nat) : Decidable (inTrapezoid uplo i j) :=
  match uplo with
  | .Lower => inferInstanceAs (Decidable (j ≤ i))
  | .Upper => inferInstanceAs (Decidable (i ≤ j))

/-! ## Triangle-triangle reduction ttmqr (internal_ttmqr.cc lines 41-260)

A has a single block-column; tileRank i is the rank owning A(i, 0), and
cRank i j the rank owning C(i, j).  The tpmqrt tile kernel is an external
collaborator abstracted as a function from the reduction row index and the
two C tiles to their updated values.  The model records the global effect:
the state of C and the list of point-to-point tile messages. -/

/-- One point-to-point tile message of ttmqr. -/
structure TtmqrMsg where
  sender : Nat
  receiver : Nat
  ti : Nat
  tj : Nat
  deriving DecidableEq, Repr

/-- State threaded through the ttmqr reduction. -/
structure TtmqrSt (γ : Type) where
  C : Nat → Nat → γ
  msgs : List TtmqrMsg

/-- Ranks appearing in the column of A: A.getRanks fills a std::set. -/
def ranksSetL (tileRank : Nat → Nat) (mt : Nat) : List Nat :=
  ((List.range mt).map tileRank).dedup

/-- First (top-most) row index of the column of A owned by rank r. -/
def firstIndexOf (tileRank : Nat → Nat) (mt : Nat) (r : Nat) : Option Nat :=
  (List.range mt).find? (fun i => decide (tileRank i = r))

/-- Insert into a sorted list (ascending). -/
def insertSorted (x : Nat) : List Nat → List Nat
  | [] => [x]
  | y :: t => if x ≤ y then x :: y :: t else y :: insertSorted x t

/-- Sort ascending (the std::sort on rank_indices, compareSecond). -/
def sortNat (l : List Nat) : List Nat :=
  l.foldr insertSorted []

/-- rank_indices of ttmqr, as row indices: each rank's first row, sorted. -/
def rankIndicesL (tileRank : Nat → Nat) (mt : Nat) : List Nat :=
  sortNat ((ranksSetL tileRank mt).filterMap (firstIndexOf tileRank mt))

/-- Global effect of one reduction pair (rows ia and ib of the rank-index
list) on one column (side Left) or row (side Right) k of C: the loop with
index multiple of 2*step sends the C tile of row ia to the owner of row ib's
tile, the partner loop iteration applies tpmqrt with the A and T tiles of
row ib to both C tiles, and the updated ia tile is sent back. -/
def ttmqrPairK {γ : Type} (side : Side) (cRank : Nat → Nat → Nat)
    (kernel : Nat → γ → γ → γ × γ) (ia ib k : Nat) (st : TtmqrSt γ) : TtmqrSt γ :=
  let p1 := if side = .Left then (ia, k) else (k, ia)
  let p2 := if side = .Left then (ib, k) else (k, ib)
  let src := cRank p1.1 p1.2
  let dst := cRank p2.1 p2.2
  let r := kernel ib (st.C p1.1 p1.2) (st.C p2.1 p2.2)
  { C := fun a b =>
      if (a, b) = p1 then r.1
      else if (a, b) = p2 then r.2
      else st.C a b
    msgs := st.msgs ++ [⟨src, dst, p1.1, p1.2⟩, ⟨dst, src, p1.1, p1.2⟩] }

/-- Body of the index loop (for index = 0; index < nranks; index += step):
the even multiples of 2*step with a live partner index+step drive a pair;
the odd multiples are the partners, already accounted for in the pair. -/
def ttmqrIndexStep {γ : Type} (side : Side) (cRank : Nat → Nat → Nat)
    (kernel : Nat → γ → γ → γ × γ) (rankIndices : List Nat)
    (nranks k_end step index : Nat) (st : TtmqrSt γ) : TtmqrSt γ :=
  if index % (2*step) = 0 then
    if index + step < nranks then
      (List.range k_end).foldl
        (fun st k =>
          ttmqrPairK side cRank kernel
            (rankIndices.getD index 0) (rankIndices.getD (index+step) 0) k st) st
    else st
  else st

/-- Index values visited by the index loop: 0, step, 2*step, ... < nranks. -/
def strideIndices (nranks step : Nat) : List Nat :=
  List.range' 0 ((nranks + step - 1) / step) step

/-- The level loop of ttmqr: nlevels rounds; step halves when descending
(Left NoTrans / Right Trans) and doubles when ascending. -/
def ttmqrLevels {γ : Type} (side : Side) (cRank : Nat → Nat → Nat)
    (kernel : Nat → γ → γ → γ × γ) (rankIndices : List Nat)
    (nranks k_end : Nat) (descend : Bool) :
    Nat → Nat → TtmqrSt γ → TtmqrSt γ
  | 0, _, st => st
  | l+1, step, st =>
      let st2 := (strideIndices nranks step).foldl
        (fun st index =>
          ttmqrIndexStep side cRank kernel rankIndices nranks k_end step index st) st
      ttmqrLevels side cRank kernel rankIndices nranks k_end descend l
        (if descend then step / 2 else step * 2) st2

/-- ttmqr<HostTask> (internal_ttmqr.cc lines 41-260): reduction tree over
the ranks of the single block-column of A, applied to C.
nlevels = ceil(log2(nranks)). -/
def ttmqr {γ : Type} (side : Side) (op : Op) (tileRank : Nat → Nat)
    (cRank : Nat → Nat → Nat) (A_mt cMt cNt : Nat)
    (kernel : Nat → γ → γ → γ × γ) (C0 : Nat → Nat → γ) : TtmqrSt γ :=
  let rankIndices := rankIndicesL tileRank A_mt
  let nranks := rankIndices.length
  let nlevels := Nat.clog 2 nranks
  let descend := decide ((side = Side.Left) = (op = Op.NoTrans))
  let step := if descend then 2 ^ (nlevels - 1) else 1
  let k_end := if side = Side.Left then cNt else cMt
  ttmqrLevels side cRank kernel rankIndices nranks k_end descend nlevels step ⟨C0, []⟩

/-! ## geqrf task graph (geqrf.cc lines 137-295)

impl::geqrf tracks dependences by block-column through the byte vector
block[0..nt-1].  The tasks emitted by the factorization loop are modelled
with their kind, OpenMP priority and dependence list. -/

/-- OpenMP dependence mode of a task argument. -/
inductive DepMode where
  | depIn
  | depInout
  deriving DecidableEq, Repr

/-- Kinds of tasks emitted by step k of impl::geqrf. -/
inductive TaskKind where
  | panel (k : Nat)
  | lookaheadUpdate (k j : Nat)
  | trailing (k : Nat)
  | cleanup (k : Nat)
  deriving DecidableEq, Repr

/-- An emitted OpenMP task: kind, priority, dependences on block[...]. -/
structure TaskDecl where
  kind : TaskKind
  priority : Nat
  deps : List (Nat × DepMode)
  deriving DecidableEq, Repr

/-- Tasks emitted by iteration k of the impl::geqrf loop, in submission
order: panel (priority 1, inout block[k]); lookahead updates for
j = k+1 while j < k+1+lookahead and j < nt (priority 1, in block[k],
inout block[j]); trailing update when k+1+lookahead < nt (no priority
clause, so priority 0; in block[k], inout block[k+1+lookahead],
inout block[nt-1]); cleanup (inout block[k]). -/
def geqrfStepTasks (nt lookahead k : Nat) : List TaskDecl :=
  [⟨.panel k, 1, [(k, .depInout)]⟩]
  ++ (List.range' (k+1) (min lookahead (nt - (k+1)))).map
      (fun j => ⟨.lookaheadUpdate k j, 1, [(k, .depIn), (j, .depInout)]⟩)
  ++ (if k+1+lookahead < nt then
        [⟨.trailing k, 0, [(k, .depIn), (k+1+lookahead, .depInout), (nt-1, .depInout)]⟩]
      else [])
  ++ [⟨.cleanup k, 0, [(k, .depInout)]⟩]

/-- All tasks of impl::geqrf in submission order, k = 0 .. min(mt,nt)-1. -/
def geqrfTasks (mt nt lookahead : Nat) : List TaskDecl :=
  (List.range (min mt nt)).foldr (fun k acc => geqrfStepTasks nt lookahead k ++ acc) []

/-- OpenMP dependence conflict: the two tasks share a block index and at
least one side accesses it inout. -/
def conflicts (t u : TaskDecl) : Bool :=
  t.deps.any (fun d => u.deps.any (fun e =>
    d.1 == e.1 && !(d.2 == DepMode.depIn && e.2 == DepMode.depIn)))

/-- Conflict between the tasks at two positions of the submission list. -/
def conflictsAt (l : List TaskDecl) (r s : Nat) : Bool :=
  match l[r]?, l[s]? with
  | some t, some u => conflicts t u
  | _, _ => false

/-- Positions reachable from position a through a chain (in submission
order) of dependence conflicts; a single increasing pass suffices because
OpenMP orders a task only after conflicting earlier tasks. -/
def waitSet (l : List TaskDecl) (a : Nat) : List Nat :=
  (List.range l.length).foldl
    (fun acc idx =>
      if idx = a then acc ++ [idx]
      else if acc.any (fun r => conflictsAt l r idx) then acc ++ [idx]
      else acc)
    []

/-- The task at position b must wait for the task at position a. -/
def mustWait (l : List TaskDecl) (a b : Nat) : Bool :=
  decide (a < b) && (waitSet l a).contains b

/-! ## Symmetric permutation permuteRowsCols (internal_swap.cc lines 420-703)

A Hermitian matrix with lower storage is an nt x nt grid of tiles; tile
(ti, tj) is stored for ti >= tj, and on diagonal tiles only entries with
row offset >= col offset.  The stored state maps (tile row, row offset,
tile col, col offset) to the element.  cj is elementwise conjugation.
swapRow (lines 428-490) swaps a partial row of op1(A(t1,u1)) with a partial
row of op2(A(t2,u2)), conjugating both when op1 differs from op2; locally
or by a paired remote exchange, the moved values are the same. -/

/-- Stored lower-triangle state: tile row, row offset, tile col, col offset. -/
def Stored (α : Type) : Type := Nat → Nat → Nat → Nat → α

/-- Whether stored entry (oa, ob) of a tile lies on the partial row of the
op-view with row offset off and columns j_off .. j_off+n-1: for NoTrans the
tile row off, for Trans the tile column off. -/
def inOpRow (op : Op) (off j_off n oa ob : Nat) : Prop :=
  match op with
  | .NoTrans => oa = off ∧ j_off ≤ ob ∧ ob < j_off + n
  | .Trans => ob = off ∧ j_off ≤ oa ∧ oa < j_off + n
  | .ConjTrans => ob = off ∧ j_off ≤ oa ∧ oa < j_off + n

instance instDecInOpRow (op : Op) (off j_off n oa ob : Nat) :
    Decidable (inOpRow op off j_off n oa ob) :=
  match op with
  | .NoTrans => inferInstanceAs (Decidable (oa = off ∧ j_off ≤ ob ∧ ob < j_off + n))
  | .Trans => inferInstanceAs (Decidable (ob = off ∧ j_off ≤ oa ∧ oa < j_off + n))
  | .ConjTrans => inferInstanceAs (Decidable (ob = off ∧ j_off ≤ oa ∧ oa < j_off + n))

/-- The running column parameter of an entry on an op-row. -/
def opPar (op : Op) (oa ob : Nat) : Nat :=
  match op with
  | .NoTrans => ob
  | .Trans => oa
  | .ConjTrans => oa

/-- Stored row offset of the entry of an op-row at parameter par. -/
def rowEntryRow (op : Op) (off par : Nat) : Nat :=
  match op with
  | .NoTrans => off
  | .Trans => par
  | .ConjTrans => par

/-- Stored col offset of the entry of an op-row at parameter par. -/
def rowEntryCol (op : Op) (off par : Nat) : Nat :=
  match op with
  | .NoTrans => par
  | .Trans => off
  | .ConjTrans => off

/-- swapRow (internal_swap.cc lines 428-490): exchange
op1(A(t1,u1))[off1, j_off : j_off+n-1] with
op2(A(t2,u2))[off2, j_off : j_off+n-1], conjugating both when op1 and op2
differ. -/
def swapRowF {α : Type} (cj : α → α) (j_off n : Nat)
    (op1 : Op) (t1 u1 off1 : Nat) (op2 : Op) (t2 u2 off2 : Nat)
    (s : Stored α) : Stored α :=
  fun a oa b ob =>
    let g : α → α := if op1 = op2 then id else cj
    if a = t1 ∧ b = u1 ∧ inOpRow op1 off1 j_off n oa ob then
      g (s t2 (rowEntryRow op2 off2 (opPar op1 oa ob)) u2 (rowEntryCol op2 off2 (opPar op1 oa ob)))
    else if a = t2 ∧ b = u2 ∧ inOpRow op2 off2 j_off n oa ob then
      g (s t1 (rowEntryRow op1 off1 (opPar op2 oa ob)) u1 (rowEntryCol op1 off1 (opPar op2 oa ob)))
    else s a oa b ob

/-- swapElement (internal_swap.cc lines 499-529): exchange
A(t1,u1)[o1, p1] with A(t2,u2)[o2, p2]. -/
def swapElementF {α : Type} (t1 o1 u1 p1 t2 o2 u2 p2 : Nat) (s : Stored α) : Stored α :=
  fun a oa b ob =>
    if a = t1 ∧ oa = o1 ∧ b = u1 ∧ ob = p1 then s t2 o2 u2 p2
    else if a = t2 ∧ oa = o2 ∧ b = u2 ∧ ob = p2 then s t1 o1 u1 p1
    else s a oa b ob

/-- Conjugate the single element A(t1,u1)[o1, p1] in place. -/
def conjAtF {α : Type} (cj : α → α) (t1 o1 u1 p1 : Nat) (s : Stored α) : Stored α :=
  fun a oa b ob =>
    if a = t1 ∧ oa = o1 ∧ b = u1 ∧ ob = p1 then cj (s t1 o1 u1 p1)
    else s a oa b ob

/-- Body of the pivot loop of permuteRowsCols<HostTask>
(internal_swap.cc lines 608-685), for pivot i1 -> (t2, i2): nothing unless
t2 > 0 or i2 > i1; otherwise the sequence of swapRow / conjugate /
swapElement calls of the source, including the loop over tile rows strictly
between 0 and t2 and the loop over tile rows below t2. -/
def applyPivotRC {α : Type} (cj : α → α) (nbF : Nat → Nat) (nt : Nat)
    (i1 : Nat) (p : Pivot) (s : Stored α) : Stored α :=
  let i2 := p.elementOffset
  let t2 := p.tileIndex
  if 0 < t2 ∨ i1 < i2 then
    let s1 := swapRowF cj 0 i1 .NoTrans 0 0 i1 .NoTrans t2 0 i2 s
    let s2 :=
      if t2 = 0 then
        let sa := swapRowF cj (i1+1) (i2-i1-1) .Trans 0 0 i1 .NoTrans 0 0 i2 s1
        swapRowF cj (i2+1) (nbF 0 - i2 - 1) .Trans 0 0 i1 .Trans 0 0 i2 sa
      else
        let sa := swapRowF cj (i1+1) (nbF 0 - i1 - 1) .Trans 0 0 i1 .NoTrans t2 0 i2 s1
        let sb := swapRowF cj 0 i2 .Trans t2 0 i1 .NoTrans t2 t2 i2 sa
        swapRowF cj (i2+1) (nbF t2 - i2 - 1) .Trans t2 0 i1 .Trans t2 t2 i2 sb
    let s3 := conjAtF cj t2 i2 0 i1 s2
    let s4 := swapElementF 0 i1 0 i1 t2 i2 t2 i2 s3
    let s5 := (List.range' 1 (t2 - 1)).foldl
      (fun s t => swapRowF cj 0 (nbF t) .Trans t 0 i1 .NoTrans t2 t i2 s) s4
    (List.range' (t2+1) (nt - (t2+1))).foldl
      (fun s t => swapRowF cj 0 (nbF t) .Trans t 0 i1 .Trans t t2 i2 s) s5
  else s

/-- permuteRowsCols<HostTask>: the pivot loop in the chosen direction. -/
def permuteRowsColsF {α : Type} (cj : α → α) (nbF : Nat → Nat) (nt : Nat)
    (d : Direction) (pivot : List Pivot) (s : Stored α) : Stored α :=
  (pivotIndices d pivot.length).foldl
    (fun s i1 =>
      match pivot[i1]? with
      | some p => applyPivotRC cj nbF nt i1 p s
      | none => s) s

/-- The full Hermitian matrix represented by lower storage: entry at global
(tile, offset) pair g, h reads the stored lower entry when g is at or below
h, and the conjugate of the mirrored entry otherwise. -/
def fullAt {α : Type} (cj : α → α) (s : Stored α) (g h : Nat × Nat) : α :=
  if h.1 < g.1 ∨ (g.1 = h.1 ∧ h.2 ≤ g.2) then s g.1 g.2 h.1 h.2
  else cj (s h.1 h.2 g.1 g.2)

/-- Transposition of two global (tile, offset) row indices. -/
def swapIdx (g1 g2 x : Nat × Nat) : Nat × Nat :=
  if x = g1 then g2 else if x = g2 then g1 else x

end SlateV

namespace SlateV

/-! ## Theorems for the permuteRows claims -/

theorem swapKeys_invol {α : Type} (s : ColSt α) (a b : Nat × Nat) :
    swapKeys (swapKeys s a b) a b = s := by
  funext x
  unfold swapKeys
  by_cases hxa : x = a
  · by_cases hba : b = a <;> simp [hxa, hba]
  · by_cases hxb : x = b
    · have hba : ¬ b = a := by rw [← hxb]; exact hxa
      simp [hxa, hxb, hba]
    · simp [hxa, hxb]

theorem applyPivotStep_invol {α : Type} (pivot : List Pivot) (s : ColSt α) (i : Nat) :
    applyPivotStep pivot (applyPivotStep pivot s i) i = s := by
  unfold applyPivotStep
  cases hp : pivot[i]? with
  | none => rfl
  | some p =>
      by_cases hg : 0 < p.tileIndex ∨ i < p.elementOffset
      · simp [hg, swapKeys_invol]
      · simp [hg]

theorem foldl_invol_reverse {α β : Type} (f : α → β → α)
    (hf : ∀ s i, f (f s i) i = s) :
    ∀ (l : List β) (s : α), (l.reverse).foldl f (l.foldl f s) = s := by
  intro l
  induction l with
  | nil => intro s; rfl
  | cons a t ih =>
      intro s
      simp only [List.reverse_cons, List.foldl_cons, List.foldl_append, List.foldl_cons,
        List.foldl_nil]
      rw [ih (f s a), hf]

theorem pivotIndicesB_eq_reverse_range (k : Nat) :
    pivotIndicesB k = (List.range k).reverse := by
  induction k with
  | zero => rfl
  | succ n ih =>
      rw [List.range_succ]
      simp [pivotIndicesB, ih]

theorem permuteRowsCol_roundtrip {α : Type} (pivot : List Pivot) (s : ColSt α) :
    permuteRowsCol .Backward pivot (permuteRowsCol .Forward pivot s) = s := by
  unfold permuteRowsCol
  simp only [pivotIndices, pivotIndicesB_eq_reverse_range]
  exact foldl_invol_reverse (applyPivotStep pivot) (applyPivotStep_invol pivot) _ s

/-- C1: permuteRows(Forward, A, P) followed by permuteRows(Backward, A, P)
leaves every block-column of A bit-identical to its original state, and the
Backward direction visits the pivot entries in exactly the reverse index
order (pivot.size()-1 down to 0) of the Forward direction. -/
theorem permuteRows_roundtrip {α : Type} (pivot : List Pivot) (nt : Nat)
    (s : Nat → ColSt α) :
    permuteRowsHostTask .Backward pivot nt (permuteRowsHostTask .Forward pivot nt s) = s ∧
    pivotIndices .Backward pivot.length = (pivotIndices .Forward pivot.length).reverse := by
  constructor
  · funext j
    unfold permuteRowsHostTask
    by_cases hj : j < nt
    · simp [hj, permuteRowsCol_roundtrip]
    · simp [hj]
  · exact pivotIndicesB_eq_reverse_range pivot.length

/-- C3 counterexample: with a single rank, pivot entry (0,0) at loop index 1
differs from (0,1), yet no row swap is performed (the code's guard is
tileIndex > 0 or elementOffset > i, not inequality with (0,i)). -/
theorem rowSwap_not_iff_ne :
    Pivot.mk 0 0 ≠ Pivot.mk 0 1 ∧
    rowSwapPerformed (fun _ => 0) (Pivot.mk 0 0) 1 = false := by
  constructor
  · decide
  · rfl

/-- C3 amended: a row swap is performed exactly when the pivot's guard
tileIndex > 0 or elementOffset > i holds; when performed and the pivot owner
is the owner of the diagonal tile, the diagonal owner does a local swap and
every other rank does nothing; when the owners differ, the diagonal owner
swaps its row i of tile 0 with the pivot owner, the pivot owner swaps its
row elementOffset of tile tileIndex with the diagonal owner, and every other
rank does nothing. -/
theorem rowSwap_dispatch (tileRank : Nat → Nat) (p : Pivot) (i : Nat) :
    (rowSwapPerformed tileRank p i = true ↔ (0 < p.tileIndex ∨ i < p.elementOffset)) ∧
    (tileRank p.tileIndex = tileRank 0 →
      (0 < p.tileIndex ∨ i < p.elementOffset) →
      perRankAction tileRank (tileRank 0) p i = .localSwap i p ∧
      (∀ m, m ≠ tileRank 0 → perRankAction tileRank m p i = .noAct)) ∧
    (tileRank p.tileIndex ≠ tileRank 0 →
      perRankAction tileRank (tileRank 0) p i = .remoteSwap 0 i (tileRank p.tileIndex) ∧
      perRankAction tileRank (tileRank p.tileIndex) p i
        = .remoteSwap p.tileIndex p.elementOffset (tileRank 0) ∧
      (∀ m, m ≠ tileRank 0 → m ≠ tileRank p.tileIndex →
        perRankAction tileRank m p i = .noAct)) := by
  refine ⟨?_, ?_, ?_⟩
  · constructor
    · intro hperf
      by_contra hg
      have h0 : perRankAction tileRank (tileRank 0) p i = .noAct := by
        unfold perRankAction
        by_cases heq : tileRank p.tileIndex = tileRank 0
        · simp [heq, hg]
        · have ht : p.tileIndex ≠ 0 := by
            intro h; exact heq (by rw [h])
          exact absurd (Or.inl (Nat.pos_of_ne_zero ht)) hg
      have h1 : perRankAction tileRank (tileRank p.tileIndex) p i = .noAct := by
        by_cases heq : tileRank p.tileIndex = tileRank 0
        · rw [heq]; exact h0
        · have ht : p.tileIndex ≠ 0 := by
            intro h; exact heq (by rw [h])
          exact absurd (Or.inl (Nat.pos_of_ne_zero ht)) hg
      unfold rowSwapPerformed at hperf
      simp [h0, h1] at hperf
    · intro hg
      unfold rowSwapPerformed perRankAction
      by_cases heq : tileRank p.tileIndex = tileRank 0
      · simp [heq, hg]
      · simp [heq]
  · intro heq hg
    constructor
    · unfold perRankAction
      simp [heq, hg]
    · intro m hm
      unfold perRankAction
      have h2 : tileRank p.tileIndex ≠ m := by rw [heq]; exact fun h => hm h.symm
      have h3 : tileRank 0 ≠ m := fun h => hm h.symm
      simp [h2, h3]
  · intro heq
    refine ⟨?_, ?_, ?_⟩
    · unfold perRankAction
      simp [heq]
    · unfold perRankAction
      simp [fun h => heq h.symm ∘ Eq.symm]
      intro hcontra
      exact absurd hcontra.symm heq
    · intro m hm0 hmp
      unfold perRankAction
      have h2 : tileRank p.tileIndex ≠ m := fun h => hmp h.symm
      have h3 : tileRank 0 ≠ m := fun h => hm0 h.symm
      simp [h2, h3]

/-- C3 amended witness at a concrete instance: ranks tileRank t = t,
pivot (1, 0), loop index 0; the owners differ and the paired remote swap
is as described. -/
theorem rowSwap_dispatch_witness :
    rowSwapPerformed (fun t => t) (Pivot.mk 1 0) 0 = true ∧
    perRankAction (fun t => t) 0 (Pivot.mk 1 0) 0 = .remoteSwap 0 0 1 ∧
    perRankAction (fun t => t) 1 (Pivot.mk 1 0) 0 = .remoteSwap 1 0 0 ∧
    perRankAction (fun t => t) 2 (Pivot.mk 1 0) 0 = .noAct := by
  have h := rowSwap_dispatch (fun t => t) (Pivot.mk 1 0) 0
  refine ⟨?_, ?_, ?_, ?_⟩
  · exact h.1.mpr (Or.inl (by decide))
  · exact (h.2.2 (by decide)).1
  · exact (h.2.2 (by decide)).2.1
  · exact (h.2.2 (by decide)).2.2 2 (by decide) (by decide)

/-! ## Theorems for geqrf option handling (C7) -/

/-- C7: under Target::Devices, geqrf allocates batch arrays for A and for the
workspace W with exactly num_queues = 3 + lookahead queues each, where
lookahead is the Option::Lookahead value defaulting to 1; Option::InnerBlocking
defaults to 16; no batch arrays are allocated for host targets. -/
theorem geqrf_queue_alloc (opts : Options) :
    (geqrfSetup .Devices opts).batchArrayQueues
      = [3 + get_option opts .Lookahead 1, 3 + get_option opts .Lookahead 1] ∧
    (geqrfSetup .Devices opts).lookahead = get_option opts .Lookahead 1 ∧
    (geqrfSetup .Devices opts).ib = get_option opts .InnerBlocking 16 ∧
    (geqrfSetup .Devices ([] : Options)).lookahead = 1 ∧
    (geqrfSetup .Devices ([] : Options)).ib = 16 ∧
    (geqrfSetup .Devices ([] : Options)).batchArrayQueues = [4, 4] ∧
    (∀ t, t ≠ Target.Devices → (geqrfSetup t opts).batchArrayQueues = []) := by
  refine ⟨rfl, rfl, rfl, rfl, rfl, rfl, ?_⟩
  intro t ht
  cases t with
  | Devices => exact absurd rfl ht
  | HostTask => rfl
  | HostNest => rfl
  | HostBatch => rfl

/-- C7 witness: with an empty options map, host targets allocate no batch
arrays and Devices allocates two sets of 3 + 1 = 4 queues. -/
theorem geqrf_queue_alloc_witness :
    (geqrfSetup .HostTask ([] : Options)).batchArrayQueues = [] ∧
    (geqrfSetup .Devices ([] : Options)).batchArrayQueues = [4, 4] := by
  exact ⟨(geqrf_queue_alloc []).2.2.2.2.2.2 .HostTask (by decide),
         (geqrf_queue_alloc []).2.2.2.2.2.1⟩

/-! ## Theorems for the tile-size partition (C8) -/

theorem effNbGo_sum (f : Nat → Nat) (hf : ∀ j, 1 ≤ f j) :
    ∀ (fuel j rem : Nat), rem ≤ fuel → (effNbGo f fuel j rem).sum = rem := by
  intro fuel
  induction fuel with
  | zero =>
      intro j rem hrem
      interval_cases rem
      rfl
  | succ n ih =>
      intro j rem hrem
      by_cases h0 : rem = 0
      · simp [effNbGo, h0]
      · have h1 : 1 ≤ rem := Nat.one_le_iff_ne_zero.mpr h0
        have hmin1 : 1 ≤ min (f j) rem := le_min (hf j) h1
        have hminle : min (f j) rem ≤ rem := min_le_right _ _
        have hrec : rem - min (f j) rem ≤ n := by omega
        simp only [effNbGo, h0, if_false, List.sum_cons]
        rw [ih (j+1) (rem - min (f j) rem) hrec]
        omega

theorem effNbGo_get (f : Nat → Nat) (hf : ∀ j, 1 ≤ f j) :
    ∀ (fuel j rem idx : Nat), rem ≤ fuel →
      idx < (effNbGo f fuel j rem).length →
      (effNbGo f fuel j rem).getD idx 0
        = min (f (j + idx)) (rem - ((effNbGo f fuel j rem).take idx).sum) := by
  intro fuel
  induction fuel with
  | zero =>
      intro j rem idx hrem hidx
      simp [effNbGo] at hidx
  | succ n ih =>
      intro j rem idx hrem hidx
      by_cases h0 : rem = 0
      · simp [effNbGo, h0] at hidx
      · have h1 : 1 ≤ rem := Nat.one_le_iff_ne_zero.mpr h0
        have hmin1 : 1 ≤ min (f j) rem := le_min (hf j) h1
        have hrec : rem - min (f j) rem ≤ n := by omega
        simp only [effNbGo, h0, if_false] at hidx ⊢
        cases idx with
        | zero => simp
        | succ m =>
            simp only [List.length_cons, Nat.succ_lt_succ_iff] at hidx
            simp only [List.getD_cons_succ, List.take_succ_cons, List.sum_cons]
            rw [ih (j+1) (rem - min (f j) rem) m hrec hidx]
            have harith : rem - (min (f j) rem + ((effNbGo f n (j+1) (rem - min (f j) rem)).take m).sum)
                = rem - min (f j) rem - ((effNbGo f n (j+1) (rem - min (f j) rem)).take m).sum := by
              omega
            rw [harith]
            have hj : j + 1 + m = j + (m + 1) := by omega
            rw [hj]

/-- C8: for a matrix built with a user tile-size function f (with f at least
1 everywhere), the effective tile widths partition N: the width of tile j is
the user value clipped to the columns remaining after tiles 0..j-1, and the
widths sum to N.  (Modelled from the spec: the constructor is not under
src/.) -/
theorem tileNb_partition (f : Nat → Nat) (N : Nat) (hf : ∀ j, 1 ≤ f j) :
    (∀ j, j < (tileNbList f N).length →
      (tileNbList f N).getD j 0
        = min (f j) (N - ((tileNbList f N).take j).sum)) ∧
    (tileNbList f N).sum = N := by
  constructor
  · intro j hj
    have h := effNbGo_get f hf N 0 N j (le_refl N) hj
    simpa [tileNbList] using h
  · exact effNbGo_sum f hf N 0 N (le_refl N)

/-- C8 witness: constant tile size 3 on a 10-column matrix gives widths
[3, 3, 3, 1]; the fourth width is the clipped remainder and the sum is 10. -/
theorem tileNb_partition_witness :
    (tileNbList (fun _ => 3) 10).getD 3 0
      = min 3 (10 - ((tileNbList (fun _ => 3) 10).take 3).sum) ∧
    (tileNbList (fun _ => 3) 10).sum = 10 := by
  have hf : ∀ j : Nat, 1 ≤ (fun _ : Nat => 3) j := by
    intro j
    show (1 : Nat) ≤ 3
    decide
  exact ⟨(tileNb_partition (fun _ => 3) 10 hf).1 3 (by decide),
         (tileNb_partition (fun _ => 3) 10 hf).2⟩

/-! ## Theorems for pbtrs (C10) -/

/-- C10: pbtrs never modifies the factor matrix A; it solves A X = B by two
triangular band solves, with the non-unit lower factor L taken from A when A
is lower-stored and from conj_transpose(A) when A is upper-stored, then with
conj_transpose(L), overwriting only B with the solution. -/
theorem pbtrs_frame {α : Type} (cj : α → α) (one : α)
    (tbsm : Side → α → TriBand α → (Nat → Nat → α) → (Nat → Nat → α))
    (A : HermBand α) (B : Nat → Nat → α) :
    (pbtrs cj one tbsm A B).A = A ∧
    (A.uplo = Uplo.Lower →
      (pbtrs cj one tbsm A B).B
        = tbsm .Left one (tbConjTranspose cj ⟨Diag.NonUnit, A.uplo, A.mat⟩)
            (tbsm .Left one ⟨Diag.NonUnit, A.uplo, A.mat⟩ B)) ∧
    (A.uplo = Uplo.Upper →
      (pbtrs cj one tbsm A B).B
        = tbsm .Left one
            (tbConjTranspose cj
              ⟨Diag.NonUnit, (hbConjTranspose cj A).uplo, (hbConjTranspose cj A).mat⟩)
            (tbsm .Left one
              ⟨Diag.NonUnit, (hbConjTranspose cj A).uplo, (hbConjTranspose cj A).mat⟩ B)) := by
  refine ⟨rfl, ?_, ?_⟩
  · intro hlow
    have hne : A.uplo ≠ Uplo.Upper := by rw [hlow]; decide
    simp [pbtrs, hne]
  · intro hup
    simp [pbtrs, hup]

/-- C10 witness: a concrete lower-stored and a concrete upper-stored instance
of the pbtrs call shape, with a concrete black-box solve. -/
theorem pbtrs_frame_witness :
    (pbtrs (fun x : Nat => x) 1 (fun (_ : Side) (_ : Nat) (L : TriBand Nat) (B : Nat → Nat → Nat) => fun i j => L.mat i j + B i j)
      ⟨Uplo.Lower, fun i j => i + 2 * j⟩ (fun i j => i * j)).A
      = ⟨Uplo.Lower, fun i j => i + 2 * j⟩ ∧
    (pbtrs (fun x : Nat => x) 1 (fun (_ : Side) (_ : Nat) (L : TriBand Nat) (B : Nat → Nat → Nat) => fun i j => L.mat i j + B i j)
      ⟨Uplo.Lower, fun i j => i + 2 * j⟩ (fun i j => i * j)).B
      = (fun (_ : Side) (_ : Nat) (L : TriBand Nat) (B : Nat → Nat → Nat) => fun i j => L.mat i j + B i j) Side.Left 1
          (tbConjTranspose (fun x : Nat => x)
            ⟨Diag.NonUnit, Uplo.Lower, fun i j => i + 2 * j⟩)
          ((fun (_ : Side) (_ : Nat) (L : TriBand Nat) (B : Nat → Nat → Nat) => fun i j => L.mat i j + B i j) Side.Left 1
            ⟨Diag.NonUnit, Uplo.Lower, fun i j => i + 2 * j⟩ (fun i j => i * j)) := by
  constructor
  · exact (pbtrs_frame (fun x : Nat => x) 1 (fun (_ : Side) (_ : Nat) (L : TriBand Nat) (B : Nat → Nat → Nat) => fun i j => L.mat i j + B i j)
      ⟨Uplo.Lower, fun i j => i + 2 * j⟩ (fun i j => i * j)).1
  · exact (pbtrs_frame (fun x : Nat => x) 1 (fun (_ : Side) (_ : Nat) (L : TriBand Nat) (B : Nat → Nat → Nat) => fun i j => L.mat i j + B i j)
      ⟨Uplo.Lower, fun i j => i + 2 * j⟩ (fun i j => i * j)).2.1 rfl

/-- C5: permuteRows produces the identical resulting state under
Target::HostTask, Target::HostNest and Target::HostBatch, for every
direction, pivot vector, matrix state, layout, priority, tag and queue
index: HostNest and HostBatch forward to the HostTask implementation. -/
theorem permuteRows_target_equiv {α : Type} (d : Direction) (pivot : List Pivot)
    (nt : Nat) (layout : Layout) (priority tag queueIndex : Nat)
    (s : Nat → ColSt α) :
    permuteRowsTarget Target.HostNest d pivot nt layout priority tag queueIndex s
      = permuteRowsTarget Target.HostTask d pivot nt layout priority tag queueIndex s ∧
    permuteRowsTarget Target.HostBatch d pivot nt layout priority tag queueIndex s
      = permuteRowsTarget Target.HostTask d pivot nt layout priority tag queueIndex s := by
  exact ⟨rfl, rfl⟩

/-! ## Theorems for the trapezoidal set kernel (C6) -/

theorem foldl_memWrite_not_mem {α : Type} (g : Nat → Nat) (v : Nat → α) :
    ∀ (l : List Nat) (A : Nat → α) (p : Nat), (∀ j ∈ l, p ≠ g j) →
      (l.foldl (fun B j => memWrite B (g j) (v j)) A) p = A p := by
  intro l
  induction l with
  | nil => intro A p _; rfl
  | cons a t ih =>
      intro A p hp
      simp only [List.foldl_cons]
      rw [ih (memWrite A (g a) (v a)) p (fun j hj => hp j (List.mem_cons_of_mem a hj))]
      have hne : p ≠ g a := hp a (List.mem_cons_self _ _)
      simp [memWrite, hne]

theorem foldl_memWrite_mem {α : Type} (g : Nat → Nat) (v : Nat → α) :
    ∀ (l : List Nat), l.Nodup → (∀ a ∈ l, ∀ b ∈ l, g a = g b → a = b) →
    ∀ (A : Nat → α) (j : Nat), j ∈ l →
      (l.foldl (fun B j => memWrite B (g j) (v j)) A) (g j) = v j := by
  intro l
  induction l with
  | nil =>
      intro _ _ A j hj
      exact absurd hj (List.not_mem_nil j)
  | cons a t ih =>
      intro hnd hinj A j hj
      have hat : a ∉ t := (List.nodup_cons.mp hnd).1
      have hndt : t.Nodup := (List.nodup_cons.mp hnd).2
      simp only [List.foldl_cons]
      rcases List.mem_cons.mp hj with h | h
      · subst h
        have hout : ∀ b ∈ t, g j ≠ g b := by
          intro b hb hgb
          have := hinj j (List.mem_cons_self _ _) b (List.mem_cons_of_mem j hb) hgb
          exact hat (this ▸ hb)
        rw [foldl_memWrite_not_mem g v t (memWrite A (g j) (v j)) (g j) hout]
        unfold memWrite
        simp
      · exact ih hndt
          (fun x hx y hy => hinj x (List.mem_cons_of_mem a hx) y (List.mem_cons_of_mem a hy))
          (memWrite A (g a) (v a)) j h

theorem tzset_addr_inj (lda i i' j j' : Nat) (hi : i < lda) (hi' : i' < lda)
    (h : i + j * lda = i' + j' * lda) : i = i' ∧ j = j' := by
  have h1 : (i + j * lda) % lda = i := by
    rw [Nat.add_mul_mod_self_right]
    exact Nat.mod_eq_of_lt hi
  have h2 : (i' + j' * lda) % lda = i' := by
    rw [Nat.add_mul_mod_self_right]
    exact Nat.mod_eq_of_lt hi'
  have hii : i = i' := by rw [← h1, ← h2, h]
  subst hii
  have hjj : j * lda = j' * lda := by omega
  have hlda : 0 < lda := Nat.pos_of_ne_zero (by omega)
  exact ⟨rfl, Nat.eq_of_mul_eq_mul_right hlda hjj⟩

theorem tzsetRowCols_nodup (uplo : Uplo) (i n : Nat) : (tzsetRowCols uplo i n).Nodup := by
  cases uplo with
  | Lower => exact List.nodup_range _
  | Upper =>
      simp only [tzsetRowCols]
      exact List.nodup_reverse.mpr (List.nodup_range' i (n - i))

theorem mem_tzsetRowCols (uplo : Uplo) (i n j : Nat) :
    j ∈ tzsetRowCols uplo i n ↔ (j < n ∧ inTrapezoid uplo i j) := by
  cases uplo with
  | Lower =>
      simp only [tzsetRowCols, List.mem_range, inTrapezoid]
      omega
  | Upper =>
      simp only [tzsetRowCols, List.mem_reverse, List.mem_range'_1, inTrapezoid]
      omega

theorem tzsetRow_mem {α : Type} (uplo : Uplo) (n : Nat) (offv dv : α) (lda i : Nat)
    (hi : i < lda) (A : Nat → α) (j : Nat) (hj : j ∈ tzsetRowCols uplo i n) :
    tzsetRow uplo n offv dv lda i A (i + j * lda) = (if i = j then dv else offv) := by
  exact foldl_memWrite_mem (fun j => i + j * lda) (fun j => if i = j then dv else offv)
    (tzsetRowCols uplo i n) (tzsetRowCols_nodup uplo i n)
    (fun a _ b _ hab => ((tzset_addr_inj lda i i a b hi hi hab).2))
    A j hj

theorem tzsetRow_not_mem {α : Type} (uplo : Uplo) (n : Nat) (offv dv : α) (lda i : Nat)
    (A : Nat → α) (p : Nat) (hp : ∀ j ∈ tzsetRowCols uplo i n, p ≠ i + j * lda) :
    tzsetRow uplo n offv dv lda i A p = A p := by
  exact foldl_memWrite_not_mem (fun j => i + j * lda)
    (fun j => if i = j then dv else offv) (tzsetRowCols uplo i n) A p hp

theorem tzset_rows_eval {α : Type} (uplo : Uplo) (n : Nat) (offv dv : α) (lda : Nat) :
    ∀ (l : List Nat), l.Nodup → (∀ i ∈ l, i < lda) → ∀ (A : Nat → α),
      (∀ p, (∀ i ∈ l, ∀ j ∈ tzsetRowCols uplo i n, p ≠ i + j * lda) →
        (l.foldl (fun B i => tzsetRow uplo n offv dv lda i B) A) p = A p) ∧
      (∀ i ∈ l, ∀ j ∈ tzsetRowCols uplo i n,
        (l.foldl (fun B i => tzsetRow uplo n offv dv lda i B) A) (i + j * lda)
          = (if i = j then dv else offv)) := by
  intro l
  induction l with
  | nil =>
      intro _ _ A
      constructor
      · intro p _; rfl
      · intro i hi; exact absurd hi (List.not_mem_nil i)
  | cons a t ih =>
      intro hnd hbound A
      have hat : a ∉ t := (List.nodup_cons.mp hnd).1
      have hndt : t.Nodup := (List.nodup_cons.mp hnd).2
      have hba : a < lda := hbound a (List.mem_cons_self _ _)
      have hbt : ∀ i ∈ t, i < lda := fun i hi => hbound i (List.mem_cons_of_mem a hi)
      constructor
      · intro p hp
        simp only [List.foldl_cons]
        rw [(ih hndt hbt (tzsetRow uplo n offv dv lda a A)).1 p
          (fun i hi j hj => hp i (List.mem_cons_of_mem a hi) j hj)]
        exact tzsetRow_not_mem uplo n offv dv lda a A p
          (fun j hj => hp a (List.mem_cons_self _ _) j hj)
      · intro i hi j hj
        simp only [List.foldl_cons]
        rcases List.mem_cons.mp hi with h | h
        · subst h
          rw [(ih hndt hbt (tzsetRow uplo n offv dv lda i A)).1 (i + j * lda) ?_]
          · exact tzsetRow_mem uplo n offv dv lda i hba A j hj
          · intro i' hi' j' _ heq
            have := (tzset_addr_inj lda i i' j j' hba (hbt i' hi') heq).1
            exact hat (this ▸ hi')
        · exact (ih hndt hbt (tzsetRow uplo n offv dv lda a A)).2 i h j hj

/-- C6: for every uplo, m, n, lda with lda at least m, tzset writes
A[i + j*lda] = diag_value on every in-range diagonal element of the
trapezoid (j <= i for Lower, i <= j for Upper), offdiag_value on every other
element of the trapezoid, and leaves every memory location outside the
trapezoid unchanged. -/
theorem tzset_trapezoid {α : Type} (uplo : Uplo) (m n : Nat) (offv dv : α)
    (lda : Nat) (A : Nat → α) (hlda : m ≤ lda) :
    (∀ i j, i < m → j < n → inTrapezoid uplo i j →
      tzset_func uplo m n offv dv lda A (i + j * lda)
        = (if i = j then dv else offv)) ∧
    (∀ p, (∀ i j, i < m → j < n → inTrapezoid uplo i j → p ≠ i + j * lda) →
      tzset_func uplo m n offv dv lda A p = A p) := by
  have hbound : ∀ i ∈ List.range m, i < lda := by
    intro i hi
    have := List.mem_range.mp hi
    omega
  have h := tzset_rows_eval uplo n offv dv lda (List.range m) (List.nodup_range m) hbound A
  constructor
  · intro i j hi hj ht
    exact h.2 i (List.mem_range.mpr hi) j ((mem_tzsetRowCols uplo i n j).mpr ⟨hj, ht⟩)
  · intro p hp
    refine h.1 p ?_
    intro i hi j hj
    have hjm := (mem_tzsetRowCols uplo i n j).mp hj
    exact hp i j (List.mem_range.mp hi) hjm.1 hjm.2

/-- C6 witness: a 2 x 2 lower trapezoid in a 3-row leading dimension; the
diagonal element (1,1), the off-diagonal element (1,0) and an untouched
location evaluate as claimed. -/
theorem tzset_trapezoid_witness :
    tzset_func Uplo.Lower 2 2 (10 : Nat) 20 3 (fun p => 100 + p) (1 + 1 * 3) = 20 ∧
    tzset_func Uplo.Lower 2 2 (10 : Nat) 20 3 (fun p => 100 + p) (1 + 0 * 3) = 10 ∧
    tzset_func Uplo.Lower 2 2 (10 : Nat) 20 3 (fun p => 100 + p) 2 = 102 := by
  have h := tzset_trapezoid Uplo.Lower 2 2 (10 : Nat) 20 3 (fun p => 100 + p) (by decide)
  refine ⟨?_, ?_, ?_⟩
  · have := h.1 1 1 (by decide) (by decide) (by decide)
    simpa using this
  · have := h.1 1 0 (by decide) (by decide) (by decide)
    simpa using this
  · have := h.2 2 (by intro i j hi hj _; omega)
    simpa using this

/-! ## Theorems for ttmqr (C9) -/

theorem insertSorted_length (x : Nat) : ∀ l : List Nat,
    (insertSorted x l).length = l.length + 1 := by
  intro l
  induction l with
  | nil => rfl
  | cons y t ih =>
      unfold insertSorted
      by_cases h : x ≤ y
      · simp [h]
      · simp [h, ih]

theorem sortNat_length (l : List Nat) : (sortNat l).length = l.length := by
  induction l with
  | nil => rfl
  | cons y t ih =>
      unfold sortNat at ih ⊢
      simp [List.foldr_cons, insertSorted_length, ih]

theorem rankIndicesL_length_le_one (tileRank : Nat → Nat) (mt : Nat)
    (h : (ranksSetL tileRank mt).length = 1) :
    (rankIndicesL tileRank mt).length ≤ 1 := by
  obtain ⟨r, hr⟩ := List.length_eq_one.mp h
  unfold rankIndicesL
  rw [sortNat_length, hr]
  cases hfi : firstIndexOf tileRank mt r with
  | none => simp [List.filterMap, hfi]
  | some i => simp [List.filterMap, hfi]

/-- C9: when all tiles of the panel column of A belong to a single MPI rank,
ttmqr computes nlevels = ceil(log2(1)) = 0, runs no reduction level,
sends and receives nothing, and leaves C completely unchanged. -/
theorem ttmqr_single_rank {γ : Type} (side : Side) (op : Op)
    (tileRank : Nat → Nat) (cRank : Nat → Nat → Nat) (A_mt cMt cNt : Nat)
    (kernel : Nat → γ → γ → γ × γ) (C0 : Nat → Nat → γ)
    (h : (ranksSetL tileRank A_mt).length = 1) :
    Nat.clog 2 (rankIndicesL tileRank A_mt).length = 0 ∧
    (ttmqr side op tileRank cRank A_mt cMt cNt kernel C0).C = C0 ∧
    (ttmqr side op tileRank cRank A_mt cMt cNt kernel C0).msgs = [] := by
  have hle := rankIndicesL_length_le_one tileRank A_mt h
  have hclog : Nat.clog 2 (rankIndicesL tileRank A_mt).length = 0 := by
    rcases Nat.le_one_iff_eq_zero_or_eq_one.mp hle with h0 | h1
    · rw [h0]; exact Nat.clog_zero_right 2
    · rw [h1]; exact Nat.clog_one_right 2
  have hfold : ttmqr side op tileRank cRank A_mt cMt cNt kernel C0 = ⟨C0, []⟩ := by
    simp only [ttmqr]
    rw [hclog]
    rfl
  exact ⟨hclog, by rw [hfold], by rw [hfold]⟩

/-- C9 witness: three tiles all owned by rank 0; the reduction does nothing
and sends nothing. -/
theorem ttmqr_single_rank_witness :
    (ttmqr Side.Left Op.ConjTrans (fun _ => 0) (fun _ _ => 0) 3 3 2
      (fun _ x y => (y, x)) (fun i j => i + 10 * j)).msgs = [] ∧
    (ttmqr Side.Left Op.ConjTrans (fun _ => 0) (fun _ _ => 0) 3 3 2
      (fun _ x y => (y, x)) (fun i j => i + 10 * j)).C = (fun i j => i + 10 * j) := by
  have h := ttmqr_single_rank Side.Left Op.ConjTrans (fun _ => 0) (fun _ _ => 0)
    3 3 2 (fun _ x y => (y, x)) (fun i j => i + 10 * j) (by decide)
  exact ⟨h.2.2, h.2.1⟩

/-! ## Theorems for the geqrf task graph (C4) -/

/-- C4 counterexample: with nt = mt = 5 and lookahead 1 at step k = 0,
a trailing submatrix exists (0+1+1 < 5) and k+1 = 1 is at most nt-1 = 4,
yet step 1's panel task (position 4) does not wait for step 0's trailing
task (position 2): their dependence sets are disjoint and no conflict chain
connects them, refuting the claim's final clause. -/
theorem geqrf_trailing_no_panel_wait :
    (geqrfTasks 5 5 1)[2]? =
      some ⟨.trailing 0, 0, [(0, .depIn), (2, .depInout), (4, .depInout)]⟩ ∧
    (geqrfTasks 5 5 1)[4]? = some ⟨.panel 1, 1, [(1, .depInout)]⟩ ∧
    (0 + 1 + 1 < 5 ∧ 0 + 1 ≤ 5 - 1) ∧
    mustWait (geqrfTasks 5 5 1) 2 4 = false := by
  decide

theorem geqrf_mem_of_step (t : TaskDecl) (nt lookahead : Nat) :
    ∀ (ks : List Nat) (k : Nat), k ∈ ks → t ∈ geqrfStepTasks nt lookahead k →
      t ∈ ks.foldr (fun k acc => geqrfStepTasks nt lookahead k ++ acc) [] := by
  intro ks
  induction ks with
  | nil =>
      intro k hk
      exact absurd hk (List.not_mem_nil k)
  | cons a rest ih =>
      intro k hk ht
      simp only [List.foldr_cons, List.mem_append]
      rcases List.mem_cons.mp hk with h | h
      · exact Or.inl (h ▸ ht)
      · exact Or.inr (ih k h ht)

/-- C4 amended: for every step k with a trailing submatrix
(k+1+lookahead < nt), the panel task is emitted with priority 1 and
dependence inout block[k]; each lookahead update task for j in k+1..k+L is
emitted with priority 1, in block[k], inout block[j]; the trailing task is
emitted with priority 0, in block[k], inout block[k+1+lookahead],
inout block[nt-1].  Step k+1's panel task (inout block[k+1]) conflicts with
step k's trailing task exactly when lookahead = 0 or k+1 = nt-1; what the
inout block[nt-1] dependence does force is that consecutive trailing tasks
always conflict, so step k+1's trailing task waits for step k's. -/
theorem geqrf_step_task_graph (mt nt lookahead k : Nat)
    (hk : k < min mt nt) (htr : k + 1 + lookahead < nt) :
    (⟨.panel k, 1, [(k, .depInout)]⟩ ∈ geqrfStepTasks nt lookahead k) ∧
    (∀ j, k+1 ≤ j → j ≤ k+lookahead →
      ⟨.lookaheadUpdate k j, 1, [(k, .depIn), (j, .depInout)]⟩
        ∈ geqrfStepTasks nt lookahead k) ∧
    (⟨.trailing k, 0, [(k, .depIn), (k+1+lookahead, .depInout), (nt-1, .depInout)]⟩
        ∈ geqrfStepTasks nt lookahead k) ∧
    (∀ t, t ∈ geqrfStepTasks nt lookahead k → t ∈ geqrfTasks mt nt lookahead) ∧
    ((conflicts
        ⟨.trailing k, 0, [(k, .depIn), (k+1+lookahead, .depInout), (nt-1, .depInout)]⟩
        ⟨.panel (k+1), 1, [(k+1, .depInout)]⟩ = true)
      ↔ (lookahead = 0 ∨ k + 1 = nt - 1)) ∧
    (conflicts
        ⟨.trailing k, 0, [(k, .depIn), (k+1+lookahead, .depInout), (nt-1, .depInout)]⟩
        ⟨.trailing (k+1), 0,
          [(k+1, .depIn), (k+1+1+lookahead, .depInout), (nt-1, .depInout)]⟩ = true) := by
  refine ⟨?_, ?_, ?_, ?_, ?_, ?_⟩
  · simp [geqrfStepTasks]
  · intro j hj1 hj2
    have hmem : (⟨.lookaheadUpdate k j, 1, [(k, .depIn), (j, .depInout)]⟩ : TaskDecl)
        ∈ (List.range' (k+1) (min lookahead (nt - (k+1)))).map
          (fun j =>
            (⟨.lookaheadUpdate k j, 1, [(k, .depIn), (j, .depInout)]⟩ : TaskDecl)) := by
      refine List.mem_map.mpr ⟨j, ?_, rfl⟩
      refine List.mem_range'_1.mpr ⟨by omega, by omega⟩
    unfold geqrfStepTasks
    exact List.mem_append_left _ (List.mem_append_left _ (List.mem_append_right _ hmem))
  · simp [geqrfStepTasks, htr]
  · intro t ht
    unfold geqrfTasks
    exact geqrf_mem_of_step t nt lookahead (List.range (min mt nt)) k
      (List.mem_range.mpr hk) ht
  · simp [conflicts, beq_iff_eq]
    omega
  · simp [conflicts, beq_iff_eq]

/-! ## Theorems for permuteRowsCols (C2) -/

theorem swapRowF_miss {α : Type} (cj : α → α) (j_off n : Nat)
    (op1 : Op) (t1 u1 off1 : Nat) (op2 : Op) (t2 u2 off2 : Nat)
    (s : Stored α) (a oa b ob : Nat)
    (h1 : ¬(a = t1 ∧ b = u1 ∧ inOpRow op1 off1 j_off n oa ob))
    (h2 : ¬(a = t2 ∧ b = u2 ∧ inOpRow op2 off2 j_off n oa ob)) :
    swapRowF cj j_off n op1 t1 u1 off1 op2 t2 u2 off2 s a oa b ob = s a oa b ob := by
  simp only [swapRowF]
  rw [if_neg h1, if_neg h2]

theorem swapRowF_hit1 {α : Type} (cj : α → α) (j_off n : Nat)
    (op1 : Op) (t1 u1 off1 : Nat) (op2 : Op) (t2 u2 off2 : Nat)
    (s : Stored α) (a oa b ob : Nat)
    (h1 : a = t1 ∧ b = u1 ∧ inOpRow op1 off1 j_off n oa ob) :
    swapRowF cj j_off n op1 t1 u1 off1 op2 t2 u2 off2 s a oa b ob
      = (if op1 = op2 then id else cj)
          (s t2 (rowEntryRow op2 off2 (opPar op1 oa ob)) u2
            (rowEntryCol op2 off2 (opPar op1 oa ob))) := by
  simp only [swapRowF]
  rw [if_pos h1]

theorem swapRowF_hit2 {α : Type} (cj : α → α) (j_off n : Nat)
    (op1 : Op) (t1 u1 off1 : Nat) (op2 : Op) (t2 u2 off2 : Nat)
    (s : Stored α) (a oa b ob : Nat)
    (h1 : ¬(a = t1 ∧ b = u1 ∧ inOpRow op1 off1 j_off n oa ob))
    (h2 : a = t2 ∧ b = u2 ∧ inOpRow op2 off2 j_off n oa ob) :
    swapRowF cj j_off n op1 t1 u1 off1 op2 t2 u2 off2 s a oa b ob
      = (if op1 = op2 then id else cj)
          (s t1 (rowEntryRow op1 off1 (opPar op2 oa ob)) u1
            (rowEntryCol op1 off1 (opPar op2 oa ob))) := by
  simp only [swapRowF]
  rw [if_neg h1, if_pos h2]

theorem swapElementF_miss {α : Type} (t1 o1 u1 p1 t2 o2 u2 p2 : Nat)
    (s : Stored α) (a oa b ob : Nat)
    (h1 : ¬(a = t1 ∧ oa = o1 ∧ b = u1 ∧ ob = p1))
    (h2 : ¬(a = t2 ∧ oa = o2 ∧ b = u2 ∧ ob = p2)) :
    swapElementF t1 o1 u1 p1 t2 o2 u2 p2 s a oa b ob = s a oa b ob := by
  simp only [swapElementF]
  rw [if_neg h1, if_neg h2]

theorem swapElementF_hit1 {α : Type} (t1 o1 u1 p1 t2 o2 u2 p2 : Nat)
    (s : Stored α) (a oa b ob : Nat)
    (h1 : a = t1 ∧ oa = o1 ∧ b = u1 ∧ ob = p1) :
    swapElementF t1 o1 u1 p1 t2 o2 u2 p2 s a oa b ob = s t2 o2 u2 p2 := by
  simp only [swapElementF]
  rw [if_pos h1]

theorem swapElementF_hit2 {α : Type} (t1 o1 u1 p1 t2 o2 u2 p2 : Nat)
    (s : Stored α) (a oa b ob : Nat)
    (h1 : ¬(a = t1 ∧ oa = o1 ∧ b = u1 ∧ ob = p1))
    (h2 : a = t2 ∧ oa = o2 ∧ b = u2 ∧ ob = p2) :
    swapElementF t1 o1 u1 p1 t2 o2 u2 p2 s a oa b ob = s t1 o1 u1 p1 := by
  simp only [swapElementF]
  rw [if_neg h1, if_pos h2]

theorem conjAtF_miss {α : Type} (cj : α → α) (t1 o1 u1 p1 : Nat)
    (s : Stored α) (a oa b ob : Nat)
    (h1 : ¬(a = t1 ∧ oa = o1 ∧ b = u1 ∧ ob = p1)) :
    conjAtF cj t1 o1 u1 p1 s a oa b ob = s a oa b ob := by
  simp only [conjAtF]
  rw [if_neg h1]

theorem conjAtF_hit {α : Type} (cj : α → α) (t1 o1 u1 p1 : Nat)
    (s : Stored α) (a oa b ob : Nat)
    (h1 : a = t1 ∧ oa = o1 ∧ b = u1 ∧ ob = p1) :
    conjAtF cj t1 o1 u1 p1 s a oa b ob = cj (s t1 o1 u1 p1) := by
  simp only [conjAtF]
  rw [if_pos h1]

theorem loop1_eval {α : Type} (cj : α → α) (nbF : Nat → Nat) (t2 i1 i2 : Nat) :
    ∀ (l : List Nat), l.Nodup → (∀ t ∈ l, 0 < t ∧ t < t2) →
    ∀ (s : Stored α) (a oa b ob : Nat),
      (l.foldl (fun s t => swapRowF cj 0 (nbF t) .Trans t 0 i1 .NoTrans t2 t i2 s) s) a oa b ob
      = if a ∈ l ∧ b = 0 ∧ ob = i1 ∧ oa < nbF a then cj (s t2 i2 a oa)
        else if b ∈ l ∧ a = t2 ∧ oa = i2 ∧ ob < nbF b then cj (s b ob 0 i1)
        else s a oa b ob := by
  intro l
  induction l with
  | nil =>
      intro _ _ s a oa b ob
      simp
  | cons t rest ih =>
      intro hnd hbound s a oa b ob
      have htnotin : t ∉ rest := (List.nodup_cons.mp hnd).1
      have hndr : rest.Nodup := (List.nodup_cons.mp hnd).2
      have hbr : ∀ x ∈ rest, 0 < x ∧ x < t2 := fun x hx => hbound x (List.mem_cons_of_mem t hx)
      have ht0 : 0 < t := (hbound t (List.mem_cons_self _ _)).1
      have htt2 : t < t2 := (hbound t (List.mem_cons_self _ _)).2
      simp only [List.foldl_cons]
      rw [ih hndr hbr]
      by_cases c1 : a ∈ rest ∧ b = 0 ∧ ob = i1 ∧ oa < nbF a
      · have hat : a ≠ t := fun he => htnotin (he ▸ c1.1)
        rw [if_pos c1, if_pos ⟨List.mem_cons_of_mem t c1.1, c1.2.1, c1.2.2.1, c1.2.2.2⟩]
        rw [swapRowF_miss cj 0 (nbF t) .Trans t 0 i1 .NoTrans t2 t i2 s t2 i2 a oa
          (fun hh => absurd hh.1 (by omega))
          (fun hh => absurd hh.2.1 hat)]
      · rw [if_neg c1]
        by_cases c2 : b ∈ rest ∧ a = t2 ∧ oa = i2 ∧ ob < nbF b
        · have hbt : b ≠ t := fun he => htnotin (he ▸ c2.1)
          have hb0 : 0 < b := (hbr b c2.1).1
          have hn1 : ¬(a ∈ t :: rest ∧ b = 0 ∧ ob = i1 ∧ oa < nbF a) :=
            fun hh => absurd hh.2.1 (by omega)
          rw [if_pos c2, if_neg hn1,
            if_pos ⟨List.mem_cons_of_mem t c2.1, c2.2.1, c2.2.2.1, c2.2.2.2⟩]
          rw [swapRowF_miss cj 0 (nbF t) .Trans t 0 i1 .NoTrans t2 t i2 s b ob 0 i1
            (fun hh => absurd hh.1 hbt)
            (fun hh => absurd hh.2.1 (by omega))]
        · rw [if_neg c2]
          by_cases d1 : a = t ∧ b = 0 ∧ inOpRow .Trans i1 0 (nbF t) oa ob
          · rw [swapRowF_hit1 cj 0 (nbF t) .Trans t 0 i1 .NoTrans t2 t i2 s a oa b ob d1]
            obtain ⟨ha, hb, hseg⟩ := d1
            simp only [inOpRow] at hseg
            obtain ⟨hobe, _h0, hoalt⟩ := hseg
            have hc : a ∈ t :: rest ∧ b = 0 ∧ ob = i1 ∧ oa < nbF a := by
              refine ⟨?_, hb, hobe, ?_⟩
              · rw [ha]; exact List.mem_cons_self _ _
              · rw [ha]; omega
            rw [if_pos hc]
            simp only [rowEntryRow, rowEntryCol, opPar]
            rw [if_neg (by decide : ¬(Op.Trans = Op.NoTrans))]
            rw [ha]
          · by_cases d2 : a = t2 ∧ b = t ∧ inOpRow .NoTrans i2 0 (nbF t) oa ob
            · rw [swapRowF_hit2 cj 0 (nbF t) .Trans t 0 i1 .NoTrans t2 t i2 s a oa b ob d1 d2]
              obtain ⟨ha, hb, hseg⟩ := d2
              simp only [inOpRow] at hseg
              obtain ⟨hoae, _h0, hoblt⟩ := hseg
              have hn1 : ¬(a ∈ t :: rest ∧ b = 0 ∧ ob = i1 ∧ oa < nbF a) := by
                intro hh
                rw [hb] at hh
                exact absurd hh.2.1 (by omega)
              have hc : b ∈ t :: rest ∧ a = t2 ∧ oa = i2 ∧ ob < nbF b := by
                refine ⟨?_, ha, hoae, ?_⟩
                · rw [hb]; exact List.mem_cons_self _ _
                · rw [hb]; omega
              rw [if_neg hn1, if_pos hc]
              simp only [rowEntryRow, rowEntryCol, opPar]
              rw [if_neg (by decide : ¬(Op.Trans = Op.NoTrans))]
              rw [hb]
            · rw [swapRowF_miss cj 0 (nbF t) .Trans t 0 i1 .NoTrans t2 t i2 s a oa b ob d1 d2]
              have hn1 : ¬(a ∈ t :: rest ∧ b = 0 ∧ ob = i1 ∧ oa < nbF a) := by
                intro hh
                rcases List.mem_cons.mp hh.1 with he | he
                · refine d1 ⟨he, hh.2.1, ?_⟩
                  simp only [inOpRow]
                  refine ⟨hh.2.2.1, Nat.zero_le _, ?_⟩
                  have h3 := hh.2.2.2
                  rw [he] at h3
                  omega
                · exact c1 ⟨he, hh.2⟩
              have hn2 : ¬(b ∈ t :: rest ∧ a = t2 ∧ oa = i2 ∧ ob < nbF b) := by
                intro hh
                rcases List.mem_cons.mp hh.1 with he | he
                · refine d2 ⟨hh.2.1, he, ?_⟩
                  simp only [inOpRow]
                  refine ⟨hh.2.2.1, Nat.zero_le _, ?_⟩
                  have h3 := hh.2.2.2
                  rw [he] at h3
                  omega
                · exact c2 ⟨he, hh.2⟩
              rw [if_neg hn1, if_neg hn2]

theorem loop2_eval {α : Type} (cj : α → α) (nbF : Nat → Nat) (t2 i1 i2 : Nat)
    (hdisj : 0 < t2 ∨ i1 < i2) :
    ∀ (l : List Nat), l.Nodup → (∀ t ∈ l, t2 < t ∧ 0 < t) →
    ∀ (s : Stored α) (a oa b ob : Nat),
      (l.foldl (fun s t => swapRowF cj 0 (nbF t) .Trans t 0 i1 .Trans t t2 i2 s) s) a oa b ob
      = if a ∈ l ∧ b = 0 ∧ ob = i1 ∧ oa < nbF a then s a oa t2 i2
        else if a ∈ l ∧ b = t2 ∧ ob = i2 ∧ oa < nbF a then s a oa 0 i1
        else s a oa b ob := by
  intro l
  induction l with
  | nil =>
      intro _ _ s a oa b ob
      simp
  | cons t rest ih =>
      intro hnd hbound s a oa b ob
      have htnotin : t ∉ rest := (List.nodup_cons.mp hnd).1
      have hndr : rest.Nodup := (List.nodup_cons.mp hnd).2
      have hbr : ∀ x ∈ rest, t2 < x ∧ 0 < x := fun x hx => hbound x (List.mem_cons_of_mem t hx)
      have ht0 : 0 < t := (hbound t (List.mem_cons_self _ _)).2
      have htt2 : t2 < t := (hbound t (List.mem_cons_self _ _)).1
      simp only [List.foldl_cons]
      rw [ih hndr hbr]
      by_cases c1 : a ∈ rest ∧ b = 0 ∧ ob = i1 ∧ oa < nbF a
      · have hat : a ≠ t := fun he => htnotin (he ▸ c1.1)
        rw [if_pos c1, if_pos ⟨List.mem_cons_of_mem t c1.1, c1.2.1, c1.2.2.1, c1.2.2.2⟩]
        rw [swapRowF_miss cj 0 (nbF t) .Trans t 0 i1 .Trans t t2 i2 s a oa t2 i2
          (fun hh => absurd hh.1 hat)
          (fun hh => absurd hh.1 hat)]
      · rw [if_neg c1]
        by_cases c2 : a ∈ rest ∧ b = t2 ∧ ob = i2 ∧ oa < nbF a
        · have hat : a ≠ t := fun he => htnotin (he ▸ c2.1)
          have hn1 : ¬(a ∈ t :: rest ∧ b = 0 ∧ ob = i1 ∧ oa < nbF a) := by
            intro hh
            rcases hdisj with hd | hd
            · exact absurd (hh.2.1 ▸ c2.2.1 : (0 : Nat) = t2) (by omega)
            · exact absurd (hh.2.2.1 ▸ c2.2.2.1 : (i1 : Nat) = i2) (by omega)
          rw [if_pos c2, if_neg hn1,
            if_pos ⟨List.mem_cons_of_mem t c2.1, c2.2.1, c2.2.2.1, c2.2.2.2⟩]
          rw [swapRowF_miss cj 0 (nbF t) .Trans t 0 i1 .Trans t t2 i2 s a oa 0 i1
            (fun hh => absurd hh.1 hat)
            (fun hh => absurd hh.1 hat)]
        · rw [if_neg c2]
          by_cases d1 : a = t ∧ b = 0 ∧ inOpRow .Trans i1 0 (nbF t) oa ob
          · rw [swapRowF_hit1 cj 0 (nbF t) .Trans t 0 i1 .Trans t t2 i2 s a oa b ob d1]
            obtain ⟨ha, hb, hseg⟩ := d1
            simp only [inOpRow] at hseg
            obtain ⟨hobe, _h0, hoalt⟩ := hseg
            have hc : a ∈ t :: rest ∧ b = 0 ∧ ob = i1 ∧ oa < nbF a := by
              refine ⟨?_, hb, hobe, ?_⟩
              · rw [ha]; exact List.mem_cons_self _ _
              · rw [ha]; omega
            rw [if_pos hc]
            simp only [rowEntryRow, rowEntryCol, opPar]
            simp only [if_true, id_eq]
            rw [ha]
          · by_cases d2 : a = t ∧ b = t2 ∧ inOpRow .Trans i2 0 (nbF t) oa ob
            · rw [swapRowF_hit2 cj 0 (nbF t) .Trans t 0 i1 .Trans t t2 i2 s a oa b ob d1 d2]
              obtain ⟨ha, hb, hseg⟩ := d2
              simp only [inOpRow] at hseg
              obtain ⟨hobe, _h0, hoalt⟩ := hseg
              have hn1 : ¬(a ∈ t :: rest ∧ b = 0 ∧ ob = i1 ∧ oa < nbF a) := by
                intro hh
                rcases hdisj with hd | hd
                · rw [hb] at hh
                  exact absurd hh.2.1 (by omega)
                · rw [hobe] at hh
                  exact absurd hh.2.2.1 (by omega)
              have hc : a ∈ t :: rest ∧ b = t2 ∧ ob = i2 ∧ oa < nbF a := by
                refine ⟨?_, hb, hobe, ?_⟩
                · rw [ha]; exact List.mem_cons_self _ _
                · rw [ha]; omega
              rw [if_neg hn1, if_pos hc]
              simp only [rowEntryRow, rowEntryCol, opPar]
              simp only [if_true, id_eq]
              rw [ha]
            · rw [swapRowF_miss cj 0 (nbF t) .Trans t 0 i1 .Trans t t2 i2 s a oa b ob d1 d2]
              have hn1 : ¬(a ∈ t :: rest ∧ b = 0 ∧ ob = i1 ∧ oa < nbF a) := by
                intro hh
                rcases List.mem_cons.mp hh.1 with he | he
                · refine d1 ⟨he, hh.2.1, ?_⟩
                  simp only [inOpRow]
                  refine ⟨hh.2.2.1, Nat.zero_le _, ?_⟩
                  have h3 := hh.2.2.2
                  rw [he] at h3
                  omega
                · exact c1 ⟨he, hh.2⟩
              have hn2 : ¬(a ∈ t :: rest ∧ b = t2 ∧ ob = i2 ∧ oa < nbF a) := by
                intro hh
                rcases List.mem_cons.mp hh.1 with he | he
                · refine d2 ⟨he, hh.2.1, ?_⟩
                  simp only [inOpRow]
                  refine ⟨hh.2.2.1, Nat.zero_le _, ?_⟩
                  have h3 := hh.2.2.2
                  rw [he] at h3
                  omega
                · exact c2 ⟨he, hh.2⟩
              rw [if_neg hn1, if_neg hn2]

theorem pair_ne_left {a b c d : Nat} (h : a ≠ c) : ((a, b) : Nat × Nat) ≠ (c, d) :=
  fun hh => h (congrArg Prod.fst hh)

theorem pair_ne_right {a b c d : Nat} (h : b ≠ d) : ((a, b) : Nat × Nat) ≠ (c, d) :=
  fun hh => h (congrArg Prod.snd hh)

theorem corePos_miss {α : Type} (cj : α → α) (nbF : Nat → Nat) (i1 t2 i2 : Nat)
    (s : Stored α) (a oa b ob : Nat)
    (hrow : (a ≠ 0 ∧ a ≠ t2) ∨ (b ≠ 0 ∧ b ≠ t2)) :
    swapElementF 0 i1 0 i1 t2 i2 t2 i2
      (conjAtF cj t2 i2 0 i1
        (swapRowF cj (i2+1) (nbF t2 - i2 - 1) .Trans t2 0 i1 .Trans t2 t2 i2
          (swapRowF cj 0 i2 .Trans t2 0 i1 .NoTrans t2 t2 i2
            (swapRowF cj (i1+1) (nbF 0 - i1 - 1) .Trans 0 0 i1 .NoTrans t2 0 i2
              (swapRowF cj 0 i1 .NoTrans 0 0 i1 .NoTrans t2 0 i2 s))))) a oa b ob
      = s a oa b ob := by
  rcases hrow with ⟨ha0, hat2⟩ | ⟨hb0, hbt2⟩
  · rw [swapElementF_miss 0 i1 0 i1 t2 i2 t2 i2 _ a oa b ob
        (fun hh => ha0 hh.1) (fun hh => hat2 hh.1),
      conjAtF_miss cj t2 i2 0 i1 _ a oa b ob (fun hh => hat2 hh.1),
      swapRowF_miss cj (i2+1) (nbF t2 - i2 - 1) .Trans t2 0 i1 .Trans t2 t2 i2 _ a oa b ob
        (fun hh => hat2 hh.1) (fun hh => hat2 hh.1),
      swapRowF_miss cj 0 i2 .Trans t2 0 i1 .NoTrans t2 t2 i2 _ a oa b ob
        (fun hh => hat2 hh.1) (fun hh => hat2 hh.1),
      swapRowF_miss cj (i1+1) (nbF 0 - i1 - 1) .Trans 0 0 i1 .NoTrans t2 0 i2 _ a oa b ob
        (fun hh => ha0 hh.1) (fun hh => hat2 hh.1),
      swapRowF_miss cj 0 i1 .NoTrans 0 0 i1 .NoTrans t2 0 i2 s a oa b ob
        (fun hh => ha0 hh.1) (fun hh => hat2 hh.1)]
  · rw [swapElementF_miss 0 i1 0 i1 t2 i2 t2 i2 _ a oa b ob
        (fun hh => hb0 hh.2.2.1) (fun hh => hbt2 hh.2.2.1),
      conjAtF_miss cj t2 i2 0 i1 _ a oa b ob (fun hh => hb0 hh.2.2.1),
      swapRowF_miss cj (i2+1) (nbF t2 - i2 - 1) .Trans t2 0 i1 .Trans t2 t2 i2 _ a oa b ob
        (fun hh => hb0 hh.2.1) (fun hh => hbt2 hh.2.1),
      swapRowF_miss cj 0 i2 .Trans t2 0 i1 .NoTrans t2 t2 i2 _ a oa b ob
        (fun hh => hb0 hh.2.1) (fun hh => hbt2 hh.2.1),
      swapRowF_miss cj (i1+1) (nbF 0 - i1 - 1) .Trans 0 0 i1 .NoTrans t2 0 i2 _ a oa b ob
        (fun hh => hb0 hh.2.1) (fun hh => hb0 hh.2.1),
      swapRowF_miss cj 0 i1 .NoTrans 0 0 i1 .NoTrans t2 0 i2 s a oa b ob
        (fun hh => hb0 hh.2.1) (fun hh => hb0 hh.2.1)]

theorem coreZero_miss {α : Type} (cj : α → α) (nbF : Nat → Nat) (i1 i2 : Nat)
    (s : Stored α) (a oa b ob : Nat)
    (hrow : a ≠ 0 ∨ b ≠ 0) :
    swapElementF 0 i1 0 i1 0 i2 0 i2
      (conjAtF cj 0 i2 0 i1
        (swapRowF cj (i2+1) (nbF 0 - i2 - 1) .Trans 0 0 i1 .Trans 0 0 i2
          (swapRowF cj (i1+1) (i2-i1-1) .Trans 0 0 i1 .NoTrans 0 0 i2
            (swapRowF cj 0 i1 .NoTrans 0 0 i1 .NoTrans 0 0 i2 s)))) a oa b ob
      = s a oa b ob := by
  rcases hrow with ha0 | hb0
  · rw [swapElementF_miss 0 i1 0 i1 0 i2 0 i2 _ a oa b ob
        (fun hh => ha0 hh.1) (fun hh => ha0 hh.1),
      conjAtF_miss cj 0 i2 0 i1 _ a oa b ob (fun hh => ha0 hh.1),
      swapRowF_miss cj (i2+1) (nbF 0 - i2 - 1) .Trans 0 0 i1 .Trans 0 0 i2 _ a oa b ob
        (fun hh => ha0 hh.1) (fun hh => ha0 hh.1),
      swapRowF_miss cj (i1+1) (i2-i1-1) .Trans 0 0 i1 .NoTrans 0 0 i2 _ a oa b ob
        (fun hh => ha0 hh.1) (fun hh => ha0 hh.1),
      swapRowF_miss cj 0 i1 .NoTrans 0 0 i1 .NoTrans 0 0 i2 s a oa b ob
        (fun hh => ha0 hh.1) (fun hh => ha0 hh.1)]
  · rw [swapElementF_miss 0 i1 0 i1 0 i2 0 i2 _ a oa b ob
        (fun hh => hb0 hh.2.2.1) (fun hh => hb0 hh.2.2.1),
      conjAtF_miss cj 0 i2 0 i1 _ a oa b ob (fun hh => hb0 hh.2.2.1),
      swapRowF_miss cj (i2+1) (nbF 0 - i2 - 1) .Trans 0 0 i1 .Trans 0 0 i2 _ a oa b ob
        (fun hh => hb0 hh.2.1) (fun hh => hb0 hh.2.1),
      swapRowF_miss cj (i1+1) (i2-i1-1) .Trans 0 0 i1 .NoTrans 0 0 i2 _ a oa b ob
        (fun hh => hb0 hh.2.1) (fun hh => hb0 hh.2.1),
      swapRowF_miss cj 0 i1 .NoTrans 0 0 i1 .NoTrans 0 0 i2 s a oa b ob
        (fun hh => hb0 hh.2.1) (fun hh => hb0 hh.2.1)]

theorem pair_eq {a b c d : Nat} (h1 : a = c) (h2 : b = d) :
    ((a, b) : Nat × Nat) = (c, d) := by
  rw [h1, h2]

theorem swapIdx_fst {g1 g2 : Nat × Nat} : swapIdx g1 g2 g1 = g2 := by
  simp [swapIdx]

theorem swapIdx_snd {g1 g2 : Nat × Nat} (hne : g2 ≠ g1) : swapIdx g1 g2 g2 = g1 := by
  simp only [swapIdx]
  rw [if_neg hne]
  simp

theorem swapIdx_other {g1 g2 x : Nat × Nat} (h1 : x ≠ g1) (h2 : x ≠ g2) :
    swapIdx g1 g2 x = x := by
  simp only [swapIdx]
  rw [if_neg h1, if_neg h2]

theorem fullAt_low {α : Type} (cj : α → α) (s : Stored α) (g h : Nat × Nat)
    (hcond : h.1 < g.1 ∨ (g.1 = h.1 ∧ h.2 ≤ g.2)) :
    fullAt cj s g h = s g.1 g.2 h.1 h.2 := by
  simp only [fullAt]
  rw [if_pos hcond]

theorem fullAt_high {α : Type} (cj : α → α) (s : Stored α) (g h : Nat × Nat)
    (hcond : ¬(h.1 < g.1 ∨ (g.1 = h.1 ∧ h.2 ≤ g.2))) :
    fullAt cj s g h = cj (s h.1 h.2 g.1 g.2) := by
  simp only [fullAt]
  rw [if_neg hcond]

theorem applyPivotRC_eval_pos {α : Type} (cj : α → α) (nbF : Nat → Nat) (nt : Nat)
    (i1 t2 i2 : Nat) (ht2pos : 0 < t2) (hi1 : i1 < nbF 0) (ht2 : t2 < nt)
    (hi2 : i2 < nbF t2) (s : Stored α) (a oa b ob : Nat)
    (ha : a < nt) (hb : b < nt) (hoa : oa < nbF a) (hob : ob < nbF b)
    (hlow : b < a ∨ (b = a ∧ ob ≤ oa)) :
    applyPivotRC cj nbF nt i1 ⟨t2, i2⟩ s a oa b ob
      = fullAt cj s (swapIdx (0, i1) (t2, i2) (a, oa)) (swapIdx (0, i1) (t2, i2) (b, ob)) := by
  have e0 : applyPivotRC cj nbF nt i1 ⟨t2, i2⟩ s
      = (List.range' (t2+1) (nt - (t2+1))).foldl
          (fun s t => swapRowF cj 0 (nbF t) .Trans t 0 i1 .Trans t t2 i2 s)
          ((List.range' 1 (t2 - 1)).foldl
            (fun s t => swapRowF cj 0 (nbF t) .Trans t 0 i1 .NoTrans t2 t i2 s)
            (swapElementF 0 i1 0 i1 t2 i2 t2 i2
              (conjAtF cj t2 i2 0 i1
                (swapRowF cj (i2+1) (nbF t2 - i2 - 1) .Trans t2 0 i1 .Trans t2 t2 i2
                  (swapRowF cj 0 i2 .Trans t2 0 i1 .NoTrans t2 t2 i2
                    (swapRowF cj (i1+1) (nbF 0 - i1 - 1) .Trans 0 0 i1 .NoTrans t2 0 i2
                      (swapRowF cj 0 i1 .NoTrans 0 0 i1 .NoTrans t2 0 i2 s))))))) := by
    simp only [applyPivotRC]
    rw [if_pos (Or.inl ht2pos), if_neg (show ¬ t2 = 0 by omega)]
  have hmem2 : ∀ x : Nat, x ∈ List.range' (t2+1) (nt - (t2+1)) ↔ (t2 < x ∧ x < nt) := by
    intro x
    rw [List.mem_range'_1]
    omega
  have hnd2 : (List.range' (t2+1) (nt - (t2+1))).Nodup := List.nodup_range' _ _
  have hbound2 : ∀ t ∈ List.range' (t2+1) (nt - (t2+1)), t2 < t ∧ 0 < t := by
    intro t htm
    have h3 := (hmem2 t).mp htm
    omega
  have hmem1 : ∀ x : Nat, x ∈ List.range' 1 (t2 - 1) ↔ (1 ≤ x ∧ x < t2) := by
    intro x
    rw [List.mem_range'_1]
    omega
  have hnd1 : (List.range' 1 (t2 - 1)).Nodup := List.nodup_range' _ _
  have hbound1 : ∀ t ∈ List.range' 1 (t2 - 1), 0 < t ∧ t < t2 := by
    intro t htm
    have h3 := (hmem1 t).mp htm
    omega
  rw [e0, loop2_eval cj nbF t2 i1 i2 (Or.inl ht2pos)
    (List.range' (t2+1) (nt - (t2+1))) hnd2 hbound2]
  by_cases hB1 : a ∈ List.range' (t2+1) (nt - (t2+1)) ∧ b = 0 ∧ ob = i1 ∧ oa < nbF a
  · rw [if_pos hB1]
    obtain ⟨hm, hb0, hobi, hoan⟩ := hB1
    have hfa := (hmem2 a).mp hm
    rw [loop1_eval cj nbF t2 i1 i2 (List.range' 1 (t2 - 1)) hnd1 hbound1]
    rw [if_neg (show ¬(a ∈ List.range' 1 (t2-1) ∧ t2 = 0 ∧ i2 = i1 ∧ oa < nbF a) from
        fun hh => absurd hh.2.1 (by omega))]
    rw [if_neg (show ¬(t2 ∈ List.range' 1 (t2-1) ∧ a = t2 ∧ oa = i2 ∧ i2 < nbF t2) from
        fun hh => absurd hh.2.1 (by omega))]
    rw [corePos_miss cj nbF i1 t2 i2 s a oa t2 i2 (Or.inl ⟨by omega, by omega⟩)]
    rw [swapIdx_other (pair_ne_left (show a ≠ 0 by omega))
      (pair_ne_left (show a ≠ t2 by omega))]
    rw [pair_eq hb0 hobi, swapIdx_fst]
    rw [fullAt_low cj s (a, oa) (t2, i2) (Or.inl (show t2 < a by omega))]
  · rw [if_neg hB1]
    by_cases hB2 : a ∈ List.range' (t2+1) (nt - (t2+1)) ∧ b = t2 ∧ ob = i2 ∧ oa < nbF a
    · rw [if_pos hB2]
      obtain ⟨hm, hbt2, hobi2, hoan⟩ := hB2
      have hfa := (hmem2 a).mp hm
      rw [loop1_eval cj nbF t2 i1 i2 (List.range' 1 (t2 - 1)) hnd1 hbound1]
      rw [if_neg (show ¬(a ∈ List.range' 1 (t2-1) ∧ (0:Nat) = 0 ∧ i1 = i1 ∧ oa < nbF a) from
          fun hh => absurd ((hmem1 a).mp hh.1).2 (by omega))]
      rw [if_neg (show ¬((0:Nat) ∈ List.range' 1 (t2-1) ∧ a = t2 ∧ oa = i2 ∧ i1 < nbF 0) from
          fun hh => absurd ((hmem1 0).mp hh.1).1 (by omega))]
      rw [corePos_miss cj nbF i1 t2 i2 s a oa 0 i1 (Or.inl ⟨by omega, by omega⟩)]
      rw [swapIdx_other (pair_ne_left (show a ≠ 0 by omega))
        (pair_ne_left (show a ≠ t2 by omega))]
      rw [pair_eq hbt2 hobi2, swapIdx_snd (pair_ne_left (show t2 ≠ 0 by omega))]
      rw [fullAt_low cj s (a, oa) (0, i1) (Or.inl (show 0 < a by omega))]
    · rw [if_neg hB2]
      rw [loop1_eval cj nbF t2 i1 i2 (List.range' 1 (t2 - 1)) hnd1 hbound1]
      by_cases hL1 : a ∈ List.range' 1 (t2-1) ∧ b = 0 ∧ ob = i1 ∧ oa < nbF a
      · rw [if_pos hL1]
        obtain ⟨hm, hb0, hobi, hoan⟩ := hL1
        have hfa := (hmem1 a).mp hm
        rw [corePos_miss cj nbF i1 t2 i2 s t2 i2 a oa (Or.inr ⟨by omega, by omega⟩)]
        rw [swapIdx_other (pair_ne_left (show a ≠ 0 by omega))
          (pair_ne_left (show a ≠ t2 by omega))]
        rw [pair_eq hb0 hobi, swapIdx_fst]
        rw [fullAt_high cj s (a, oa) (t2, i2)
          (show ¬(t2 < a ∨ (a = t2 ∧ i2 ≤ oa)) by omega)]
      · rw [if_neg hL1]
        by_cases hL2 : b ∈ List.range' 1 (t2-1) ∧ a = t2 ∧ oa = i2 ∧ ob < nbF b
        · rw [if_pos hL2]
          obtain ⟨hm, hat2, hoai2, hobn⟩ := hL2
          have hfb := (hmem1 b).mp hm
          rw [corePos_miss cj nbF i1 t2 i2 s b ob 0 i1 (Or.inl ⟨by omega, by omega⟩)]
          rw [pair_eq hat2 hoai2, swapIdx_snd (pair_ne_left (show t2 ≠ 0 by omega))]
          rw [swapIdx_other (pair_ne_left (show b ≠ 0 by omega))
            (pair_ne_left (show b ≠ t2 by omega))]
          rw [fullAt_high cj s (0, i1) (b, ob)
            (show ¬(b < 0 ∨ ((0:Nat) = b ∧ ob ≤ i1)) by omega)]
        · rw [if_neg hL2]
          by_cases hE1 : a = 0 ∧ oa = i1 ∧ b = 0 ∧ ob = i1
          · rw [swapElementF_hit1 0 i1 0 i1 t2 i2 t2 i2 _ a oa b ob hE1]
            obtain ⟨ha0, hoai, hb0, hobi⟩ := hE1
            rw [conjAtF_miss cj t2 i2 0 i1 _ t2 i2 t2 i2
              (fun hh => absurd hh.2.2.1 (by omega))]
            rw [swapRowF_miss cj (i2+1) (nbF t2 - i2 - 1) .Trans t2 0 i1 .Trans t2 t2 i2 _
              t2 i2 t2 i2
              (fun hh => absurd hh.2.1 (by omega))
              (by intro hh; simp only [inOpRow] at hh; omega)]
            rw [swapRowF_miss cj 0 i2 .Trans t2 0 i1 .NoTrans t2 t2 i2 _ t2 i2 t2 i2
              (fun hh => absurd hh.2.1 (by omega))
              (by intro hh; simp only [inOpRow] at hh; omega)]
            rw [swapRowF_miss cj (i1+1) (nbF 0 - i1 - 1) .Trans 0 0 i1 .NoTrans t2 0 i2 _
              t2 i2 t2 i2
              (fun hh => absurd hh.1 (by omega))
              (fun hh => absurd hh.2.1 (by omega))]
            rw [swapRowF_miss cj 0 i1 .NoTrans 0 0 i1 .NoTrans t2 0 i2 s t2 i2 t2 i2
              (fun hh => absurd hh.1 (by omega))
              (fun hh => absurd hh.2.1 (by omega))]
            rw [pair_eq ha0 hoai, swapIdx_fst, pair_eq hb0 hobi, swapIdx_fst]
            rw [fullAt_low cj s (t2, i2) (t2, i2) (Or.inr ⟨rfl, Nat.le_refl i2⟩)]
          · by_cases hE2 : a = t2 ∧ oa = i2 ∧ b = t2 ∧ ob = i2
            · rw [swapElementF_hit2 0 i1 0 i1 t2 i2 t2 i2 _ a oa b ob hE1 hE2]
              obtain ⟨hat2, hoai2, hbt2, hobi2⟩ := hE2
              rw [conjAtF_miss cj t2 i2 0 i1 _ 0 i1 0 i1 (fun hh => absurd hh.1 (by omega))]
              rw [swapRowF_miss cj (i2+1) (nbF t2 - i2 - 1) .Trans t2 0 i1 .Trans t2 t2 i2 _
                0 i1 0 i1
                (fun hh => absurd hh.1 (by omega)) (fun hh => absurd hh.1 (by omega))]
              rw [swapRowF_miss cj 0 i2 .Trans t2 0 i1 .NoTrans t2 t2 i2 _ 0 i1 0 i1
                (fun hh => absurd hh.1 (by omega)) (fun hh => absurd hh.1 (by omega))]
              rw [swapRowF_miss cj (i1+1) (nbF 0 - i1 - 1) .Trans 0 0 i1 .NoTrans t2 0 i2 _
                0 i1 0 i1
                (by intro hh; simp only [inOpRow] at hh; omega)
                (fun hh => absurd hh.1 (by omega))]
              rw [swapRowF_miss cj 0 i1 .NoTrans 0 0 i1 .NoTrans t2 0 i2 s 0 i1 0 i1
                (by intro hh; simp only [inOpRow] at hh; omega)
                (fun hh => absurd hh.1 (by omega))]
              rw [pair_eq hat2 hoai2, swapIdx_snd (pair_ne_left (show t2 ≠ 0 by omega)),
                pair_eq hbt2 hobi2, swapIdx_snd (pair_ne_left (show t2 ≠ 0 by omega))]
              rw [fullAt_low cj s (0, i1) (0, i1) (Or.inr ⟨rfl, Nat.le_refl i1⟩)]
            · rw [swapElementF_miss 0 i1 0 i1 t2 i2 t2 i2 _ a oa b ob hE1 hE2]
              by_cases hE3 : a = t2 ∧ oa = i2 ∧ b = 0 ∧ ob = i1
              · rw [conjAtF_hit cj t2 i2 0 i1 _ a oa b ob hE3]
                obtain ⟨hat2, hoai2, hb0, hobi⟩ := hE3
                rw [swapRowF_miss cj (i2+1) (nbF t2 - i2 - 1) .Trans t2 0 i1 .Trans t2 t2 i2 _
                  t2 i2 0 i1
                  (by intro hh; simp only [inOpRow] at hh; omega)
                  (fun hh => absurd hh.2.1 (by omega))]
                rw [swapRowF_miss cj 0 i2 .Trans t2 0 i1 .NoTrans t2 t2 i2 _ t2 i2 0 i1
                  (by intro hh; simp only [inOpRow] at hh; omega)
                  (fun hh => absurd hh.2.1 (by omega))]
                rw [swapRowF_miss cj (i1+1) (nbF 0 - i1 - 1) .Trans 0 0 i1 .NoTrans t2 0 i2 _
                  t2 i2 0 i1
                  (fun hh => absurd hh.1 (by omega))
                  (by intro hh; simp only [inOpRow] at hh; omega)]
                rw [swapRowF_miss cj 0 i1 .NoTrans 0 0 i1 .NoTrans t2 0 i2 s t2 i2 0 i1
                  (fun hh => absurd hh.1 (by omega))
                  (by intro hh; simp only [inOpRow] at hh; omega)]
                rw [pair_eq hat2 hoai2, swapIdx_snd (pair_ne_left (show t2 ≠ 0 by omega)),
                  pair_eq hb0 hobi, swapIdx_fst]
                rw [fullAt_high cj s (0, i1) (t2, i2)
                  (show ¬(t2 < 0 ∨ ((0:Nat) = t2 ∧ i2 ≤ i1)) by omega)]
              · rw [conjAtF_miss cj t2 i2 0 i1 _ a oa b ob hE3]
                by_cases hF1 : a = t2 ∧ b = 0 ∧ inOpRow .Trans i1 (i2+1) (nbF t2 - i2 - 1) oa ob
                · rw [swapRowF_hit1 cj (i2+1) (nbF t2 - i2 - 1) .Trans t2 0 i1 .Trans t2 t2 i2 _
                    a oa b ob hF1]
                  obtain ⟨hat2, hb0, hseg⟩ := hF1
                  simp only [inOpRow] at hseg
                  obtain ⟨hobi, hoage, hoalt⟩ := hseg
                  simp only [rowEntryRow, rowEntryCol, opPar, if_true, id_eq]
                  rw [swapRowF_miss cj 0 i2 .Trans t2 0 i1 .NoTrans t2 t2 i2 _ t2 oa t2 i2
                    (fun hh => absurd hh.2.1 (by omega))
                    (by intro hh; simp only [inOpRow] at hh; omega)]
                  rw [swapRowF_miss cj (i1+1) (nbF 0 - i1 - 1) .Trans 0 0 i1 .NoTrans t2 0 i2 _
                    t2 oa t2 i2
                    (fun hh => absurd hh.1 (by omega))
                    (fun hh => absurd hh.2.1 (by omega))]
                  rw [swapRowF_miss cj 0 i1 .NoTrans 0 0 i1 .NoTrans t2 0 i2 s t2 oa t2 i2
                    (fun hh => absurd hh.1 (by omega))
                    (fun hh => absurd hh.2.1 (by omega))]
                  rw [swapIdx_other (pair_ne_left (show a ≠ 0 by omega))
                    (pair_ne_right (show oa ≠ i2 by omega)),
                    pair_eq hb0 hobi, swapIdx_fst]
                  rw [fullAt_low cj s (a, oa) (t2, i2) (Or.inr ⟨hat2, by omega⟩)]
                  rw [hat2]
                · by_cases hF2 : a = t2 ∧ b = t2 ∧
                      inOpRow .Trans i2 (i2+1) (nbF t2 - i2 - 1) oa ob
                  · rw [swapRowF_hit2 cj (i2+1) (nbF t2 - i2 - 1) .Trans t2 0 i1 .Trans t2 t2 i2 _
                      a oa b ob hF1 hF2]
                    obtain ⟨hat2, hbt2, hseg⟩ := hF2
                    simp only [inOpRow] at hseg
                    obtain ⟨hobi2, hoage, hoalt⟩ := hseg
                    simp only [rowEntryRow, rowEntryCol, opPar, if_true, id_eq]
                    rw [swapRowF_miss cj 0 i2 .Trans t2 0 i1 .NoTrans t2 t2 i2 _ t2 oa 0 i1
                      (by intro hh; simp only [inOpRow] at hh; omega)
                      (fun hh => absurd hh.2.1 (by omega))]
                    rw [swapRowF_miss cj (i1+1) (nbF 0 - i1 - 1) .Trans 0 0 i1 .NoTrans t2 0 i2 _
                      t2 oa 0 i1
                      (fun hh => absurd hh.1 (by omega))
                      (by intro hh; simp only [inOpRow] at hh; omega)]
                    rw [swapRowF_miss cj 0 i1 .NoTrans 0 0 i1 .NoTrans t2 0 i2 s t2 oa 0 i1
                      (fun hh => absurd hh.1 (by omega))
                      (by intro hh; simp only [inOpRow] at hh; omega)]
                    rw [swapIdx_other (pair_ne_left (show a ≠ 0 by omega))
                      (pair_ne_right (show oa ≠ i2 by omega)),
                      pair_eq hbt2 hobi2, swapIdx_snd (pair_ne_left (show t2 ≠ 0 by omega))]
                    rw [fullAt_low cj s (a, oa) (0, i1) (Or.inl (show 0 < a by omega))]
                    rw [hat2]
                  · rw [swapRowF_miss cj (i2+1) (nbF t2 - i2 - 1) .Trans t2 0 i1 .Trans t2 t2 i2 _
                      a oa b ob hF1 hF2]
                    by_cases hF3 : a = t2 ∧ b = 0 ∧ inOpRow .Trans i1 0 i2 oa ob
                    · rw [swapRowF_hit1 cj 0 i2 .Trans t2 0 i1 .NoTrans t2 t2 i2 _ a oa b ob hF3]
                      obtain ⟨hat2, hb0, hseg⟩ := hF3
                      simp only [inOpRow] at hseg
                      obtain ⟨hobi, _hge, hoalt⟩ := hseg
                      simp only [rowEntryRow, rowEntryCol, opPar]
                      rw [if_neg (by decide : ¬(Op.Trans = Op.NoTrans))]
                      rw [swapRowF_miss cj (i1+1) (nbF 0 - i1 - 1) .Trans 0 0 i1 .NoTrans t2 0 i2 _
                        t2 i2 t2 oa
                        (fun hh => absurd hh.1 (by omega))
                        (fun hh => absurd hh.2.1 (by omega))]
                      rw [swapRowF_miss cj 0 i1 .NoTrans 0 0 i1 .NoTrans t2 0 i2 s t2 i2 t2 oa
                        (fun hh => absurd hh.1 (by omega))
                        (fun hh => absurd hh.2.1 (by omega))]
                      rw [swapIdx_other (pair_ne_left (show a ≠ 0 by omega))
                        (pair_ne_right (show oa ≠ i2 by omega)),
                        pair_eq hb0 hobi, swapIdx_fst]
                      rw [fullAt_high cj s (a, oa) (t2, i2)
                        (show ¬(t2 < a ∨ (a = t2 ∧ i2 ≤ oa)) by omega)]
                      rw [hat2]
                    · by_cases hF4 : a = t2 ∧ b = t2 ∧ inOpRow .NoTrans i2 0 i2 oa ob
                      · rw [swapRowF_hit2 cj 0 i2 .Trans t2 0 i1 .NoTrans t2 t2 i2 _ a oa b ob
                          hF3 hF4]
                        obtain ⟨hat2, hbt2, hseg⟩ := hF4
                        simp only [inOpRow] at hseg
                        obtain ⟨hoai2, _hge, hoblt⟩ := hseg
                        simp only [rowEntryRow, rowEntryCol, opPar]
                        rw [if_neg (by decide : ¬(Op.Trans = Op.NoTrans))]
                        rw [swapRowF_miss cj (i1+1) (nbF 0 - i1 - 1) .Trans 0 0 i1 .NoTrans t2 0 i2 _
                          t2 ob 0 i1
                          (fun hh => absurd hh.1 (by omega))
                          (by intro hh; simp only [inOpRow] at hh; omega)]
                        rw [swapRowF_miss cj 0 i1 .NoTrans 0 0 i1 .NoTrans t2 0 i2 s t2 ob 0 i1
                          (fun hh => absurd hh.1 (by omega))
                          (by intro hh; simp only [inOpRow] at hh; omega)]
                        rw [pair_eq hat2 hoai2, swapIdx_snd (pair_ne_left (show t2 ≠ 0 by omega)),
                          swapIdx_other (pair_ne_left (show b ≠ 0 by omega))
                            (pair_ne_right (show ob ≠ i2 by omega))]
                        rw [fullAt_high cj s (0, i1) (b, ob)
                          (show ¬(b < 0 ∨ ((0:Nat) = b ∧ ob ≤ i1)) by omega)]
                        rw [hbt2]
                      · rw [swapRowF_miss cj 0 i2 .Trans t2 0 i1 .NoTrans t2 t2 i2 _ a oa b ob
                          hF3 hF4]
                        by_cases hF5 : a = 0 ∧ b = 0 ∧
                            inOpRow .Trans i1 (i1+1) (nbF 0 - i1 - 1) oa ob
                        · rw [swapRowF_hit1 cj (i1+1) (nbF 0 - i1 - 1) .Trans 0 0 i1
                            .NoTrans t2 0 i2 _ a oa b ob hF5]
                          obtain ⟨ha0, hb0, hseg⟩ := hF5
                          simp only [inOpRow] at hseg
                          obtain ⟨hobi, hoage, hoalt⟩ := hseg
                          simp only [rowEntryRow, rowEntryCol, opPar]
                          rw [if_neg (by decide : ¬(Op.Trans = Op.NoTrans))]
                          rw [swapRowF_miss cj 0 i1 .NoTrans 0 0 i1 .NoTrans t2 0 i2 s t2 i2 0 oa
                            (fun hh => absurd hh.1 (by omega))
                            (by intro hh; simp only [inOpRow] at hh; omega)]
                          rw [swapIdx_other (pair_ne_right (show oa ≠ i1 by omega))
                            (pair_ne_left (show a ≠ t2 by omega)),
                            pair_eq hb0 hobi, swapIdx_fst]
                          rw [fullAt_high cj s (a, oa) (t2, i2)
                            (show ¬(t2 < a ∨ (a = t2 ∧ i2 ≤ oa)) by omega)]
                          rw [ha0]
                        · by_cases hF6 : a = t2 ∧ b = 0 ∧
                              inOpRow .NoTrans i2 (i1+1) (nbF 0 - i1 - 1) oa ob
                          · rw [swapRowF_hit2 cj (i1+1) (nbF 0 - i1 - 1) .Trans 0 0 i1
                              .NoTrans t2 0 i2 _ a oa b ob hF5 hF6]
                            obtain ⟨hat2, hb0, hseg⟩ := hF6
                            simp only [inOpRow] at hseg
                            obtain ⟨hoai2, hobge, hoblt⟩ := hseg
                            simp only [rowEntryRow, rowEntryCol, opPar]
                            rw [if_neg (by decide : ¬(Op.Trans = Op.NoTrans))]
                            rw [swapRowF_miss cj 0 i1 .NoTrans 0 0 i1 .NoTrans t2 0 i2 s 0 ob 0 i1
                              (by intro hh; simp only [inOpRow] at hh; omega)
                              (fun hh => absurd hh.1 (by omega))]
                            rw [pair_eq hat2 hoai2,
                              swapIdx_snd (pair_ne_left (show t2 ≠ 0 by omega)),
                              swapIdx_other (pair_ne_right (show ob ≠ i1 by omega))
                                (pair_ne_left (show b ≠ t2 by omega))]
                            rw [fullAt_high cj s (0, i1) (b, ob)
                              (show ¬(b < 0 ∨ ((0:Nat) = b ∧ ob ≤ i1)) by omega)]
                            rw [hb0]
                          · rw [swapRowF_miss cj (i1+1) (nbF 0 - i1 - 1) .Trans 0 0 i1
                              .NoTrans t2 0 i2 _ a oa b ob hF5 hF6]
                            by_cases hF7 : a = 0 ∧ b = 0 ∧ inOpRow .NoTrans i1 0 i1 oa ob
                            · rw [swapRowF_hit1 cj 0 i1 .NoTrans 0 0 i1 .NoTrans t2 0 i2 s
                                a oa b ob hF7]
                              obtain ⟨ha0, hb0, hseg⟩ := hF7
                              simp only [inOpRow] at hseg
                              obtain ⟨hoai, _hge, hoblt⟩ := hseg
                              simp only [rowEntryRow, rowEntryCol, opPar, if_true, id_eq]
                              rw [pair_eq ha0 hoai, swapIdx_fst,
                                swapIdx_other (pair_ne_right (show ob ≠ i1 by omega))
                                  (pair_ne_left (show b ≠ t2 by omega))]
                              rw [fullAt_low cj s (t2, i2) (b, ob)
                                (Or.inl (show b < t2 by omega))]
                              rw [hb0]
                            · by_cases hF8 : a = t2 ∧ b = 0 ∧ inOpRow .NoTrans i2 0 i1 oa ob
                              · rw [swapRowF_hit2 cj 0 i1 .NoTrans 0 0 i1 .NoTrans t2 0 i2 s
                                  a oa b ob hF7 hF8]
                                obtain ⟨hat2, hb0, hseg⟩ := hF8
                                simp only [inOpRow] at hseg
                                obtain ⟨hoai2, _hge, hoblt⟩ := hseg
                                simp only [rowEntryRow, rowEntryCol, opPar, if_true, id_eq]
                                rw [pair_eq hat2 hoai2,
                                  swapIdx_snd (pair_ne_left (show t2 ≠ 0 by omega)),
                                  swapIdx_other (pair_ne_right (show ob ≠ i1 by omega))
                                    (pair_ne_left (show b ≠ t2 by omega))]
                                rw [fullAt_low cj s (0, i1) (b, ob)
                                  (Or.inr ⟨hb0.symm, by omega⟩)]
                                rw [hb0]
                              · rw [swapRowF_miss cj 0 i1 .NoTrans 0 0 i1 .NoTrans t2 0 i2 s
                                  a oa b ob hF7 hF8]
                                have hga1 : ((a, oa) : Nat × Nat) ≠ (0, i1) := by
                                  intro hp
                                  rw [Prod.mk.injEq] at hp
                                  obtain ⟨ha0, hoai⟩ := hp
                                  rcases hlow with h | h
                                  · omega
                                  · obtain ⟨hba, hobo⟩ := h
                                    by_cases hobi : ob = i1
                                    · exact hE1 ⟨ha0, hoai, by omega, hobi⟩
                                    · refine hF7 ⟨ha0, by omega, ?_⟩
                                      simp only [inOpRow]
                                      omega
                                have hga2 : ((a, oa) : Nat × Nat) ≠ (t2, i2) := by
                                  intro hp
                                  rw [Prod.mk.injEq] at hp
                                  obtain ⟨hat2, hoai2⟩ := hp
                                  rcases hlow with h | h
                                  · by_cases hb0 : b = 0
                                    · by_cases hobi : ob = i1
                                      · exact hE3 ⟨hat2, hoai2, hb0, hobi⟩
                                      · by_cases hoblt : ob < i1
                                        · refine hF8 ⟨hat2, hb0, ?_⟩
                                          simp only [inOpRow]
                                          omega
                                        · refine hF6 ⟨hat2, hb0, ?_⟩
                                          simp only [inOpRow]
                                          have hob0 : ob < nbF 0 := by
                                            rw [hb0] at hob
                                            exact hob
                                          omega
                                    · exact hL2 ⟨(hmem1 b).mpr ⟨by omega, by omega⟩,
                                        hat2, hoai2, hob⟩
                                  · obtain ⟨hba, hobo⟩ := h
                                    by_cases hobi2 : ob = i2
                                    · exact hE2 ⟨hat2, hoai2, by omega, hobi2⟩
                                    · refine hF4 ⟨hat2, by omega, ?_⟩
                                      simp only [inOpRow]
                                      omega
                                have hgb1 : ((b, ob) : Nat × Nat) ≠ (0, i1) := by
                                  intro hp
                                  rw [Prod.mk.injEq] at hp
                                  obtain ⟨hb0, hobi⟩ := hp
                                  by_cases ha0 : a = 0
                                  · have hi1oa : i1 ≤ oa := by
                                      rcases hlow with h | h
                                      · omega
                                      · omega
                                    by_cases hoai : oa = i1
                                    · exact hE1 ⟨ha0, hoai, hb0, hobi⟩
                                    · refine hF5 ⟨ha0, hb0, ?_⟩
                                      simp only [inOpRow]
                                      have hoa0 : oa < nbF 0 := by
                                        rw [ha0] at hoa
                                        exact hoa
                                      omega
                                  · by_cases halt : a < t2
                                    · exact hL1 ⟨(hmem1 a).mpr ⟨by omega, by omega⟩,
                                        hb0, hobi, hoa⟩
                                    · by_cases hat2 : a = t2
                                      · by_cases hoai2 : oa = i2
                                        · exact hE3 ⟨hat2, hoai2, hb0, hobi⟩
                                        · by_cases hoalt : oa < i2
                                          · refine hF3 ⟨hat2, hb0, ?_⟩
                                            simp only [inOpRow]
                                            omega
                                          · refine hF1 ⟨hat2, hb0, ?_⟩
                                            simp only [inOpRow]
                                            have hoat2 : oa < nbF t2 := by
                                              rw [hat2] at hoa
                                              exact hoa
                                            omega
                                      · exact hB1 ⟨(hmem2 a).mpr ⟨by omega, ha⟩,
                                          hb0, hobi, hoa⟩
                                have hgb2 : ((b, ob) : Nat × Nat) ≠ (t2, i2) := by
                                  intro hp
                                  rw [Prod.mk.injEq] at hp
                                  obtain ⟨hbt2, hobi2⟩ := hp
                                  rcases hlow with h | h
                                  · exact hB2 ⟨(hmem2 a).mpr ⟨by omega, ha⟩,
                                      hbt2, hobi2, hoa⟩
                                  · obtain ⟨hba, hobo⟩ := h
                                    by_cases hoai2 : oa = i2
                                    · exact hE2 ⟨by omega, hoai2, hbt2, hobi2⟩
                                    · refine hF2 ⟨by omega, hbt2, ?_⟩
                                      simp only [inOpRow]
                                      have hoat2 : oa < nbF t2 := by
                                        have hab : a = t2 := by omega
                                        rw [hab] at hoa
                                        exact hoa
                                      omega
                                rw [swapIdx_other hga1 hga2, swapIdx_other hgb1 hgb2]
                                have hcond : b < a ∨ (a = b ∧ ob ≤ oa) := by
                                  rcases hlow with h | h
                                  · exact Or.inl h
                                  · exact Or.inr ⟨h.1.symm, h.2⟩
                                simp only [fullAt]
                                rw [if_pos hcond]

theorem applyPivotRC_eval_zero {α : Type} (cj : α → α) (nbF : Nat → Nat) (nt : Nat)
    (i1 i2 : Nat) (hi12 : i1 < i2) (hi1 : i1 < nbF 0) (hnt : 0 < nt)
    (hi2 : i2 < nbF 0) (s : Stored α) (a oa b ob : Nat)
    (ha : a < nt) (hb : b < nt) (hoa : oa < nbF a) (hob : ob < nbF b)
    (hlow : b < a ∨ (b = a ∧ ob ≤ oa)) :
    applyPivotRC cj nbF nt i1 ⟨0, i2⟩ s a oa b ob
      = fullAt cj s (swapIdx (0, i1) (0, i2) (a, oa)) (swapIdx (0, i1) (0, i2) (b, ob)) := by
  have e0 : applyPivotRC cj nbF nt i1 ⟨0, i2⟩ s
      = (List.range' (0+1) (nt - (0+1))).foldl
          (fun s t => swapRowF cj 0 (nbF t) .Trans t 0 i1 .Trans t 0 i2 s)
          (swapElementF 0 i1 0 i1 0 i2 0 i2
            (conjAtF cj 0 i2 0 i1
              (swapRowF cj (i2+1) (nbF 0 - i2 - 1) .Trans 0 0 i1 .Trans 0 0 i2
                (swapRowF cj (i1+1) (i2-i1-1) .Trans 0 0 i1 .NoTrans 0 0 i2
                  (swapRowF cj 0 i1 .NoTrans 0 0 i1 .NoTrans 0 0 i2 s))))) := by
    simp only [applyPivotRC]
    rw [if_pos (Or.inr hi12)]
    simp only [if_pos (rfl : (0:Nat) = 0), if_true, Nat.zero_sub, List.range'_zero,
      List.foldl_nil]
  have hmem2 : ∀ x : Nat, x ∈ List.range' (0+1) (nt - (0+1)) ↔ (1 ≤ x ∧ x < nt) := by
    intro x
    rw [List.mem_range'_1]
    omega
  have hnd2 : (List.range' (0+1) (nt - (0+1))).Nodup := List.nodup_range' _ _
  have hbound2 : ∀ t ∈ List.range' (0+1) (nt - (0+1)), 0 < t ∧ 0 < t := by
    intro t htm
    have h3 := (hmem2 t).mp htm
    omega
  rw [e0, loop2_eval cj nbF 0 i1 i2 (Or.inr hi12)
    (List.range' (0+1) (nt - (0+1))) hnd2 hbound2]
  by_cases hB1 : a ∈ List.range' (0+1) (nt - (0+1)) ∧ b = 0 ∧ ob = i1 ∧ oa < nbF a
  · rw [if_pos hB1]
    obtain ⟨hm, hb0, hobi, hoan⟩ := hB1
    have hfa := (hmem2 a).mp hm
    rw [coreZero_miss cj nbF i1 i2 s a oa 0 i2 (Or.inl (by omega))]
    rw [swapIdx_other (pair_ne_left (show a ≠ 0 by omega))
      (pair_ne_left (show a ≠ 0 by omega))]
    rw [pair_eq hb0 hobi, swapIdx_fst]
    rw [fullAt_low cj s (a, oa) (0, i2) (Or.inl (show 0 < a by omega))]
  · rw [if_neg hB1]
    by_cases hB2 : a ∈ List.range' (0+1) (nt - (0+1)) ∧ b = 0 ∧ ob = i2 ∧ oa < nbF a
    · rw [if_pos hB2]
      obtain ⟨hm, hb0, hobi2, hoan⟩ := hB2
      have hfa := (hmem2 a).mp hm
      rw [coreZero_miss cj nbF i1 i2 s a oa 0 i1 (Or.inl (by omega))]
      rw [swapIdx_other (pair_ne_left (show a ≠ 0 by omega))
        (pair_ne_left (show a ≠ 0 by omega))]
      rw [pair_eq hb0 hobi2, swapIdx_snd (pair_ne_right (show i2 ≠ i1 by omega))]
      rw [fullAt_low cj s (a, oa) (0, i1) (Or.inl (show 0 < a by omega))]
    · rw [if_neg hB2]
      by_cases hE1 : a = 0 ∧ oa = i1 ∧ b = 0 ∧ ob = i1
      · rw [swapElementF_hit1 0 i1 0 i1 0 i2 0 i2 _ a oa b ob hE1]
        obtain ⟨ha0, hoai, hb0, hobi⟩ := hE1
        rw [conjAtF_miss cj 0 i2 0 i1 _ 0 i2 0 i2
          (fun hh => absurd hh.2.2.2 (by omega))]
        rw [swapRowF_miss cj (i2+1) (nbF 0 - i2 - 1) .Trans 0 0 i1 .Trans 0 0 i2 _ 0 i2 0 i2
          (by intro hh; simp only [inOpRow] at hh; omega)
          (by intro hh; simp only [inOpRow] at hh; omega)]
        rw [swapRowF_miss cj (i1+1) (i2-i1-1) .Trans 0 0 i1 .NoTrans 0 0 i2 _ 0 i2 0 i2
          (by intro hh; simp only [inOpRow] at hh; omega)
          (by intro hh; simp only [inOpRow] at hh; omega)]
        rw [swapRowF_miss cj 0 i1 .NoTrans 0 0 i1 .NoTrans 0 0 i2 s 0 i2 0 i2
          (by intro hh; simp only [inOpRow] at hh; omega)
          (by intro hh; simp only [inOpRow] at hh; omega)]
        rw [pair_eq ha0 hoai, swapIdx_fst, pair_eq hb0 hobi, swapIdx_fst]
        rw [fullAt_low cj s (0, i2) (0, i2) (Or.inr ⟨rfl, Nat.le_refl i2⟩)]
      · by_cases hE2 : a = 0 ∧ oa = i2 ∧ b = 0 ∧ ob = i2
        · rw [swapElementF_hit2 0 i1 0 i1 0 i2 0 i2 _ a oa b ob hE1 hE2]
          obtain ⟨ha0, hoai2, hb0, hobi2⟩ := hE2
          rw [conjAtF_miss cj 0 i2 0 i1 _ 0 i1 0 i1
            (fun hh => absurd hh.2.1 (by omega))]
          rw [swapRowF_miss cj (i2+1) (nbF 0 - i2 - 1) .Trans 0 0 i1 .Trans 0 0 i2 _ 0 i1 0 i1
            (by intro hh; simp only [inOpRow] at hh; omega)
            (by intro hh; simp only [inOpRow] at hh; omega)]
          rw [swapRowF_miss cj (i1+1) (i2-i1-1) .Trans 0 0 i1 .NoTrans 0 0 i2 _ 0 i1 0 i1
            (by intro hh; simp only [inOpRow] at hh; omega)
            (by intro hh; simp only [inOpRow] at hh; omega)]
          rw [swapRowF_miss cj 0 i1 .NoTrans 0 0 i1 .NoTrans 0 0 i2 s 0 i1 0 i1
            (by intro hh; simp only [inOpRow] at hh; omega)
            (by intro hh; simp only [inOpRow] at hh; omega)]
          rw [pair_eq ha0 hoai2, swapIdx_snd (pair_ne_right (show i2 ≠ i1 by omega)),
            pair_eq hb0 hobi2, swapIdx_snd (pair_ne_right (show i2 ≠ i1 by omega))]
          rw [fullAt_low cj s (0, i1) (0, i1) (Or.inr ⟨rfl, Nat.le_refl i1⟩)]
        · rw [swapElementF_miss 0 i1 0 i1 0 i2 0 i2 _ a oa b ob hE1 hE2]
          by_cases hE3 : a = 0 ∧ oa = i2 ∧ b = 0 ∧ ob = i1
          · rw [conjAtF_hit cj 0 i2 0 i1 _ a oa b ob hE3]
            obtain ⟨ha0, hoai2, hb0, hobi⟩ := hE3
            rw [swapRowF_miss cj (i2+1) (nbF 0 - i2 - 1) .Trans 0 0 i1 .Trans 0 0 i2 _ 0 i2 0 i1
              (by intro hh; simp only [inOpRow] at hh; omega)
              (by intro hh; simp only [inOpRow] at hh; omega)]
            rw [swapRowF_miss cj (i1+1) (i2-i1-1) .Trans 0 0 i1 .NoTrans 0 0 i2 _ 0 i2 0 i1
              (by intro hh; simp only [inOpRow] at hh; omega)
              (by intro hh; simp only [inOpRow] at hh; omega)]
            rw [swapRowF_miss cj 0 i1 .NoTrans 0 0 i1 .NoTrans 0 0 i2 s 0 i2 0 i1
              (by intro hh; simp only [inOpRow] at hh; omega)
              (by intro hh; simp only [inOpRow] at hh; omega)]
            rw [pair_eq ha0 hoai2, swapIdx_snd (pair_ne_right (show i2 ≠ i1 by omega)),
              pair_eq hb0 hobi, swapIdx_fst]
            rw [fullAt_high cj s (0, i1) (0, i2)
              (show ¬((0:Nat) < 0 ∨ ((0:Nat) = 0 ∧ i2 ≤ i1)) by omega)]
          · rw [conjAtF_miss cj 0 i2 0 i1 _ a oa b ob hE3]
            by_cases hG1 : a = 0 ∧ b = 0 ∧ inOpRow .Trans i1 (i2+1) (nbF 0 - i2 - 1) oa ob
            · rw [swapRowF_hit1 cj (i2+1) (nbF 0 - i2 - 1) .Trans 0 0 i1 .Trans 0 0 i2 _
                a oa b ob hG1]
              obtain ⟨ha0, hb0, hseg⟩ := hG1
              simp only [inOpRow] at hseg
              obtain ⟨hobi, hoage, hoalt⟩ := hseg
              simp only [rowEntryRow, rowEntryCol, opPar, if_true, id_eq]
              rw [swapRowF_miss cj (i1+1) (i2-i1-1) .Trans 0 0 i1 .NoTrans 0 0 i2 _ 0 oa 0 i2
                (by intro hh; simp only [inOpRow] at hh; omega)
                (by intro hh; simp only [inOpRow] at hh; omega)]
              rw [swapRowF_miss cj 0 i1 .NoTrans 0 0 i1 .NoTrans 0 0 i2 s 0 oa 0 i2
                (by intro hh; simp only [inOpRow] at hh; omega)
                (by intro hh; simp only [inOpRow] at hh; omega)]
              rw [swapIdx_other (pair_ne_right (show oa ≠ i1 by omega))
                (pair_ne_right (show oa ≠ i2 by omega)),
                pair_eq hb0 hobi, swapIdx_fst]
              rw [fullAt_low cj s (a, oa) (0, i2) (Or.inr ⟨ha0, by omega⟩)]
              rw [ha0]
            · by_cases hG2 : a = 0 ∧ b = 0 ∧ inOpRow .Trans i2 (i2+1) (nbF 0 - i2 - 1) oa ob
              · rw [swapRowF_hit2 cj (i2+1) (nbF 0 - i2 - 1) .Trans 0 0 i1 .Trans 0 0 i2 _
                  a oa b ob hG1 hG2]
                obtain ⟨ha0, hb0, hseg⟩ := hG2
                simp only [inOpRow] at hseg
                obtain ⟨hobi2, hoage, hoalt⟩ := hseg
                simp only [rowEntryRow, rowEntryCol, opPar, if_true, id_eq]
                rw [swapRowF_miss cj (i1+1) (i2-i1-1) .Trans 0 0 i1 .NoTrans 0 0 i2 _ 0 oa 0 i1
                  (by intro hh; simp only [inOpRow] at hh; omega)
                  (by intro hh; simp only [inOpRow] at hh; omega)]
                rw [swapRowF_miss cj 0 i1 .NoTrans 0 0 i1 .NoTrans 0 0 i2 s 0 oa 0 i1
                  (by intro hh; simp only [inOpRow] at hh; omega)
                  (by intro hh; simp only [inOpRow] at hh; omega)]
                rw [swapIdx_other (pair_ne_right (show oa ≠ i1 by omega))
                  (pair_ne_right (show oa ≠ i2 by omega)),
                  pair_eq hb0 hobi2, swapIdx_snd (pair_ne_right (show i2 ≠ i1 by omega))]
                rw [fullAt_low cj s (a, oa) (0, i1) (Or.inr ⟨ha0, by omega⟩)]
                rw [ha0]
              · rw [swapRowF_miss cj (i2+1) (nbF 0 - i2 - 1) .Trans 0 0 i1 .Trans 0 0 i2 _
                  a oa b ob hG1 hG2]
                by_cases hG3 : a = 0 ∧ b = 0 ∧ inOpRow .Trans i1 (i1+1) (i2-i1-1) oa ob
                · rw [swapRowF_hit1 cj (i1+1) (i2-i1-1) .Trans 0 0 i1 .NoTrans 0 0 i2 _
                    a oa b ob hG3]
                  obtain ⟨ha0, hb0, hseg⟩ := hG3
                  simp only [inOpRow] at hseg
                  obtain ⟨hobi, hoage, hoalt⟩ := hseg
                  simp only [rowEntryRow, rowEntryCol, opPar]
                  rw [if_neg (by decide : ¬(Op.Trans = Op.NoTrans))]
                  rw [swapRowF_miss cj 0 i1 .NoTrans 0 0 i1 .NoTrans 0 0 i2 s 0 i2 0 oa
                    (by intro hh; simp only [inOpRow] at hh; omega)
                    (by intro hh; simp only [inOpRow] at hh; omega)]
                  rw [swapIdx_other (pair_ne_right (show oa ≠ i1 by omega))
                    (pair_ne_right (show oa ≠ i2 by omega)),
                    pair_eq hb0 hobi, swapIdx_fst]
                  rw [fullAt_high cj s (a, oa) (0, i2)
                    (show ¬((0:Nat) < a ∨ (a = 0 ∧ i2 ≤ oa)) by omega)]
                  rw [ha0]
                · by_cases hG4 : a = 0 ∧ b = 0 ∧ inOpRow .NoTrans i2 (i1+1) (i2-i1-1) oa ob
                  · rw [swapRowF_hit2 cj (i1+1) (i2-i1-1) .Trans 0 0 i1 .NoTrans 0 0 i2 _
                      a oa b ob hG3 hG4]
                    obtain ⟨ha0, hb0, hseg⟩ := hG4
                    simp only [inOpRow] at hseg
                    obtain ⟨hoai2, hobge, hoblt⟩ := hseg
                    simp only [rowEntryRow, rowEntryCol, opPar]
                    rw [if_neg (by decide : ¬(Op.Trans = Op.NoTrans))]
                    rw [swapRowF_miss cj 0 i1 .NoTrans 0 0 i1 .NoTrans 0 0 i2 s 0 ob 0 i1
                      (by intro hh; simp only [inOpRow] at hh; omega)
                      (by intro hh; simp only [inOpRow] at hh; omega)]
                    rw [pair_eq ha0 hoai2, swapIdx_snd (pair_ne_right (show i2 ≠ i1 by omega)),
                      swapIdx_other (pair_ne_right (show ob ≠ i1 by omega))
                        (pair_ne_right (show ob ≠ i2 by omega))]
                    rw [fullAt_high cj s (0, i1) (b, ob)
                      (show ¬(b < 0 ∨ ((0:Nat) = b ∧ ob ≤ i1)) by omega)]
                    rw [hb0]
                  · rw [swapRowF_miss cj (i1+1) (i2-i1-1) .Trans 0 0 i1 .NoTrans 0 0 i2 _
                      a oa b ob hG3 hG4]
                    by_cases hG5 : a = 0 ∧ b = 0 ∧ inOpRow .NoTrans i1 0 i1 oa ob
                    · rw [swapRowF_hit1 cj 0 i1 .NoTrans 0 0 i1 .NoTrans 0 0 i2 s a oa b ob hG5]
                      obtain ⟨ha0, hb0, hseg⟩ := hG5
                      simp only [inOpRow] at hseg
                      obtain ⟨hoai, _hge, hoblt⟩ := hseg
                      simp only [rowEntryRow, rowEntryCol, opPar, if_true, id_eq]
                      rw [pair_eq ha0 hoai, swapIdx_fst,
                        swapIdx_other (pair_ne_right (show ob ≠ i1 by omega))
                          (pair_ne_right (show ob ≠ i2 by omega))]
                      rw [fullAt_low cj s (0, i2) (b, ob) (Or.inr ⟨hb0.symm, by omega⟩)]
                      rw [hb0]
                    · by_cases hG6 : a = 0 ∧ b = 0 ∧ inOpRow .NoTrans i2 0 i1 oa ob
                      · rw [swapRowF_hit2 cj 0 i1 .NoTrans 0 0 i1 .NoTrans 0 0 i2 s
                          a oa b ob hG5 hG6]
                        obtain ⟨ha0, hb0, hseg⟩ := hG6
                        simp only [inOpRow] at hseg
                        obtain ⟨hoai2, _hge, hoblt⟩ := hseg
                        simp only [rowEntryRow, rowEntryCol, opPar, if_true, id_eq]
                        rw [pair_eq ha0 hoai2, swapIdx_snd (pair_ne_right (show i2 ≠ i1 by omega)),
                          swapIdx_other (pair_ne_right (show ob ≠ i1 by omega))
                            (pair_ne_right (show ob ≠ i2 by omega))]
                        rw [fullAt_low cj s (0, i1) (b, ob) (Or.inr ⟨hb0.symm, by omega⟩)]
                        rw [hb0]
                      · rw [swapRowF_miss cj 0 i1 .NoTrans 0 0 i1 .NoTrans 0 0 i2 s
                          a oa b ob hG5 hG6]
                        have hga1 : ((a, oa) : Nat × Nat) ≠ (0, i1) := by
                          intro hp
                          rw [Prod.mk.injEq] at hp
                          obtain ⟨ha0, hoai⟩ := hp
                          rcases hlow with h | h
                          · omega
                          · obtain ⟨hba, hobo⟩ := h
                            by_cases hobi : ob = i1
                            · exact hE1 ⟨ha0, hoai, by omega, hobi⟩
                            · refine hG5 ⟨ha0, by omega, ?_⟩
                              simp only [inOpRow]
                              omega
                        have hga2 : ((a, oa) : Nat × Nat) ≠ (0, i2) := by
                          intro hp
                          rw [Prod.mk.injEq] at hp
                          obtain ⟨ha0, hoai2⟩ := hp
                          rcases hlow with h | h
                          · omega
                          · obtain ⟨hba, hobo⟩ := h
                            by_cases hobi2 : ob = i2
                            · exact hE2 ⟨ha0, hoai2, by omega, hobi2⟩
                            · by_cases hobi : ob = i1
                              · exact hE3 ⟨ha0, hoai2, by omega, hobi⟩
                              · by_cases hoblt : ob < i1
                                · refine hG6 ⟨ha0, by omega, ?_⟩
                                  simp only [inOpRow]
                                  omega
                                · refine hG4 ⟨ha0, by omega, ?_⟩
                                  simp only [inOpRow]
                                  omega
                        have hgb1 : ((b, ob) : Nat × Nat) ≠ (0, i1) := by
                          intro hp
                          rw [Prod.mk.injEq] at hp
                          obtain ⟨hb0, hobi⟩ := hp
                          by_cases ha0 : a = 0
                          · have hi1oa : i1 ≤ oa := by
                              rcases hlow with h | h
                              · omega
                              · omega
                            by_cases hoai : oa = i1
                            · exact hE1 ⟨ha0, hoai, hb0, hobi⟩
                            · by_cases hoai2 : oa = i2
                              · exact hE3 ⟨ha0, hoai2, hb0, hobi⟩
                              · by_cases hoalt : oa < i2
                                · refine hG3 ⟨ha0, hb0, ?_⟩
                                  simp only [inOpRow]
                                  omega
                                · refine hG1 ⟨ha0, hb0, ?_⟩
                                  simp only [inOpRow]
                                  have hoa0 : oa < nbF 0 := by
                                    rw [ha0] at hoa
                                    exact hoa
                                  omega
                          · exact hB1 ⟨(hmem2 a).mpr ⟨by omega, ha⟩, hb0, hobi, hoa⟩
                        have hgb2 : ((b, ob) : Nat × Nat) ≠ (0, i2) := by
                          intro hp
                          rw [Prod.mk.injEq] at hp
                          obtain ⟨hb0, hobi2⟩ := hp
                          by_cases ha0 : a = 0
                          · have hi2oa : i2 ≤ oa := by
                              rcases hlow with h | h
                              · omega
                              · omega
                            by_cases hoai2 : oa = i2
                            · exact hE2 ⟨ha0, hoai2, hb0, hobi2⟩
                            · refine hG2 ⟨ha0, hb0, ?_⟩
                              simp only [inOpRow]
                              have hoa0 : oa < nbF 0 := by
                                rw [ha0] at hoa
                                exact hoa
                              omega
                          · exact hB2 ⟨(hmem2 a).mpr ⟨by omega, ha⟩, hb0, hobi2, hoa⟩
                        rw [swapIdx_other hga1 hga2, swapIdx_other hgb1 hgb2]
                        have hcond : b < a ∨ (a = b ∧ ob ≤ oa) := by
                          rcases hlow with h | h
                          · exact Or.inl h
                          · exact Or.inr ⟨h.1.symm, h.2⟩
                        simp only [fullAt]
                        rw [if_pos hcond]

theorem applyPivotRC_eval {α : Type} (cj : α → α) (nbF : Nat → Nat) (nt : Nat)
    (i1 : Nat) (p : Pivot) (hguard : 0 < p.tileIndex ∨ i1 < p.elementOffset)
    (hi1 : i1 < nbF 0) (ht2 : p.tileIndex < nt)
    (hi2 : p.elementOffset < nbF p.tileIndex) (s : Stored α) (a oa b ob : Nat)
    (ha : a < nt) (hb : b < nt) (hoa : oa < nbF a) (hob : ob < nbF b)
    (hlow : b < a ∨ (b = a ∧ ob ≤ oa)) :
    applyPivotRC cj nbF nt i1 p s a oa b ob
      = fullAt cj s (swapIdx (0, i1) (p.tileIndex, p.elementOffset) (a, oa))
          (swapIdx (0, i1) (p.tileIndex, p.elementOffset) (b, ob)) := by
  obtain ⟨t2, i2⟩ := p
  have hg : 0 < t2 ∨ i1 < i2 := hguard
  have ht2b : t2 < nt := ht2
  have hi2b : i2 < nbF t2 := hi2
  by_cases ht0 : t2 = 0
  · subst ht0
    have hi12 : i1 < i2 := by
      rcases hg with h | h
      · exact absurd h (by omega)
      · exact h
    exact applyPivotRC_eval_zero cj nbF nt i1 i2 hi12 hi1 (by omega) hi2b s
      a oa b ob ha hb hoa hob hlow
  · exact applyPivotRC_eval_pos cj nbF nt i1 t2 i2 (Nat.pos_of_ne_zero ht0) hi1 ht2b hi2b s
      a oa b ob ha hb hoa hob hlow

theorem swapIdx_invol (g1 g2 x : Nat × Nat) : swapIdx g1 g2 (swapIdx g1 g2 x) = x := by
  by_cases h1 : x = g1
  · rw [h1, swapIdx_fst]
    by_cases h2 : g2 = g1
    · rw [h2, swapIdx_fst]
    · rw [swapIdx_snd h2]
  · by_cases h2 : x = g2
    · have hne : g2 ≠ g1 := h2 ▸ h1
      rw [h2, swapIdx_snd hne, swapIdx_fst]
    · rw [swapIdx_other h1 h2, swapIdx_other h1 h2]

theorem fullAt_conj_ne {α : Type} (cj : α → α) (hinv : ∀ x, cj (cj x) = x)
    (s : Stored α) (x y : Nat × Nat) (hxy : x ≠ y) :
    fullAt cj s x y = cj (fullAt cj s y x) := by
  obtain ⟨x1, x2⟩ := x
  obtain ⟨y1, y2⟩ := y
  have hne : ¬(x1 = y1 ∧ x2 = y2) := by
    intro h
    exact hxy (pair_eq h.1 h.2)
  by_cases hc : y1 < x1 ∨ (x1 = y1 ∧ y2 ≤ x2)
  · rw [fullAt_low cj s (x1, x2) (y1, y2) hc]
    rw [fullAt_high cj s (y1, y2) (x1, x2)
      (show ¬(x1 < y1 ∨ (y1 = x1 ∧ x2 ≤ y2)) by omega)]
    rw [hinv]
  · rw [fullAt_high cj s (x1, x2) (y1, y2) hc]
    rw [fullAt_low cj s (y1, y2) (x1, x2)
      (show x1 < y1 ∨ (y1 = x1 ∧ x2 ≤ y2) by omega)]

theorem swapIdx_bounds (nbF : Nat → Nat) (nt : Nat) (i1 t2 i2 : Nat)
    (hi1 : i1 < nbF 0) (hnt : 0 < nt) (ht2 : t2 < nt) (hi2 : i2 < nbF t2)
    (x : Nat × Nat) (hx1 : x.1 < nt) (hx2 : x.2 < nbF x.1) :
    (swapIdx (0, i1) (t2, i2) x).1 < nt
      ∧ (swapIdx (0, i1) (t2, i2) x).2 < nbF (swapIdx (0, i1) (t2, i2) x).1 := by
  by_cases h1 : x = ((0 : Nat), i1)
  · rw [h1, swapIdx_fst]
    exact ⟨ht2, hi2⟩
  · by_cases h2 : x = ((t2 : Nat), i2)
    · by_cases h3 : ((t2, i2) : Nat × Nat) = (0, i1)
      · rw [h2, h3, swapIdx_fst]
        exact ⟨hnt, hi1⟩
      · rw [h2, swapIdx_snd h3]
        exact ⟨hnt, hi1⟩
    · rw [swapIdx_other h1 h2]
      exact ⟨hx1, hx2⟩

theorem applyPivotRC_diag {α : Type} (cj : α → α) (nbF : Nat → Nat) (nt : Nat)
    (i1 : Nat) (p : Pivot) (hi1 : i1 < nbF 0)
    (ht2 : p.tileIndex < nt) (hi2 : p.elementOffset < nbF p.tileIndex)
    (s : Stored α)
    (hdiag : ∀ t o, t < nt → o < nbF t → cj (s t o t o) = s t o t o)
    (t o : Nat) (ht : t < nt) (ho : o < nbF t) :
    cj (applyPivotRC cj nbF nt i1 p s t o t o)
      = applyPivotRC cj nbF nt i1 p s t o t o := by
  by_cases hguard : 0 < p.tileIndex ∨ i1 < p.elementOffset
  · rw [applyPivotRC_eval cj nbF nt i1 p hguard hi1 ht2 hi2 s t o t o ht ht ho ho
      (Or.inr ⟨rfl, Nat.le_refl o⟩)]
    obtain ⟨hb1, hb2⟩ := swapIdx_bounds nbF nt i1 p.tileIndex p.elementOffset hi1
      (by omega) ht2 hi2 (t, o) ht ho
    rw [fullAt_low cj s _ _ (Or.inr ⟨rfl, Nat.le_refl _⟩)]
    exact hdiag _ _ hb1 hb2
  · have e : applyPivotRC cj nbF nt i1 p s = s := by
      simp only [applyPivotRC]
      rw [if_neg hguard]
    rw [e]
    exact hdiag t o ht ho

theorem permuteRowsColsF_diag {α : Type} (cj : α → α) (nbF : Nat → Nat) (nt : Nat)
    (pivot : List Pivot) (hlen : pivot.length ≤ nbF 0)
    (hvalid : ∀ p ∈ pivot, p.tileIndex < nt ∧ p.elementOffset < nbF p.tileIndex)
    (l : List Nat) :
    ∀ (s : Stored α),
      (∀ t o, t < nt → o < nbF t → cj (s t o t o) = s t o t o) →
      ∀ t o, t < nt → o < nbF t →
        cj ((l.foldl (fun s i1 =>
              match pivot[i1]? with
              | some p => applyPivotRC cj nbF nt i1 p s
              | none => s) s) t o t o)
          = (l.foldl (fun s i1 =>
              match pivot[i1]? with
              | some p => applyPivotRC cj nbF nt i1 p s
              | none => s) s) t o t o := by
  induction l with
  | nil =>
    intro s hdiag
    exact hdiag
  | cons i rest ih =>
    intro s hdiag
    refine ih _ ?_
    show ∀ t o, t < nt → o < nbF t →
        cj ((match pivot[i]? with
              | some p => applyPivotRC cj nbF nt i p s
              | none => s) t o t o)
          = (match pivot[i]? with
              | some p => applyPivotRC cj nbF nt i p s
              | none => s) t o t o
    intro t o ht ho
    cases hp : pivot[i]? with
    | none => exact hdiag t o ht ho
    | some p =>
      have hi : i < pivot.length := by
        by_contra hcon
        rw [List.getElem?_eq_none (by omega)] at hp
        exact Option.noConfusion hp
      have hmem : p ∈ pivot := by
        have h2 : pivot[i]? = some pivot[i] := List.getElem?_eq_getElem hi
        rw [hp] at h2
        have h3 : p = pivot[i] := Option.some.inj h2
        rw [h3]
        exact List.getElem_mem hi
      exact applyPivotRC_diag cj nbF nt i p (by omega) (hvalid p hmem).1
        (hvalid p hmem).2 s hdiag t o ht ho

/-- **C2.** permuteRowsCols<HostTask> preserves the Hermitian property of a
lower-stored matrix: with cj an involutive conjugation and a cj-real
diagonal, (a) the full matrix represented by the lower storage after
permuteRowsColsF still equals its conjugate transpose at every in-bounds
pair of global indices, and (b) each applied pivot step (guard
tileIndex > 0 or elementOffset > i1) acts on the represented full matrix
exactly as the symmetric transposition of global rows and columns (0, i1)
and (t2, i2): rows and columns are swapped symmetrically, the crossing
element is read conjugated through the representation, and the two
diagonal elements are exchanged. -/
theorem permuteRowsCols_preserves_hermitian {α : Type} (cj : α → α)
    (hinv : ∀ x, cj (cj x) = x) (nbF : Nat → Nat) (nt : Nat) (d : Direction)
    (pivot : List Pivot) (s : Stored α)
    (hlen : pivot.length ≤ nbF 0)
    (hvalid : ∀ p ∈ pivot, p.tileIndex < nt ∧ p.elementOffset < nbF p.tileIndex)
    (hdiag : ∀ t o, t < nt → o < nbF t → cj (s t o t o) = s t o t o) :
    (∀ g h : Nat × Nat, g.1 < nt → g.2 < nbF g.1 → h.1 < nt → h.2 < nbF h.1 →
        fullAt cj (permuteRowsColsF cj nbF nt d pivot s) g h
          = cj (fullAt cj (permuteRowsColsF cj nbF nt d pivot s) h g))
    ∧ (∀ (i1 : Nat) (p : Pivot), i1 < nbF 0 →
        (0 < p.tileIndex ∨ i1 < p.elementOffset) →
        p.tileIndex < nt → p.elementOffset < nbF p.tileIndex →
        ∀ g h : Nat × Nat, g.1 < nt → g.2 < nbF g.1 → h.1 < nt → h.2 < nbF h.1 →
          fullAt cj (applyPivotRC cj nbF nt i1 p s) g h
            = fullAt cj s (swapIdx (0, i1) (p.tileIndex, p.elementOffset) g)
                (swapIdx (0, i1) (p.tileIndex, p.elementOffset) h)) := by
  constructor
  · intro g h hg1 hg2 hh1 hh2
    by_cases hgh : g = h
    · subst hgh
      have hD := permuteRowsColsF_diag cj nbF nt pivot hlen hvalid
        (pivotIndices d pivot.length) s hdiag
      rw [fullAt_low cj (permuteRowsColsF cj nbF nt d pivot s) g g
        (Or.inr ⟨rfl, Nat.le_refl g.2⟩)]
      exact (hD g.1 g.2 hg1 hg2).symm
    · exact fullAt_conj_ne cj hinv _ g h hgh
  · intro i1 p hpi1 hguard hpt2 hpi2 g h hg1 hg2 hh1 hh2
    obtain ⟨g1, g2⟩ := g
    obtain ⟨h1, h2⟩ := h
    by_cases hc : h1 < g1 ∨ (g1 = h1 ∧ h2 ≤ g2)
    · rw [fullAt_low cj (applyPivotRC cj nbF nt i1 p s) (g1, g2) (h1, h2) hc]
      show applyPivotRC cj nbF nt i1 p s g1 g2 h1 h2 = _
      rw [applyPivotRC_eval cj nbF nt i1 p hguard hpi1 hpt2 hpi2 s g1 g2 h1 h2
        hg1 hh1 hg2 hh2 (by omega)]
    · rw [fullAt_high cj (applyPivotRC cj nbF nt i1 p s) (g1, g2) (h1, h2) hc]
      show cj (applyPivotRC cj nbF nt i1 p s h1 h2 g1 g2) = _
      rw [applyPivotRC_eval cj nbF nt i1 p hguard hpi1 hpt2 hpi2 s h1 h2 g1 g2
        hh1 hg1 hh2 hg2 (by omega)]
      have hne2 : swapIdx (0, i1) (p.tileIndex, p.elementOffset) (h1, h2)
          ≠ swapIdx (0, i1) (p.tileIndex, p.elementOffset) (g1, g2) := by
        intro e
        have e2 := congrArg (swapIdx (0, i1) (p.tileIndex, p.elementOffset)) e
        rw [swapIdx_invol, swapIdx_invol] at e2
        rw [Prod.mk.injEq] at e2
        omega
      rw [fullAt_conj_ne cj hinv s _ _ hne2]
      rw [hinv]

/-- C2 witness: the Hermitian invariant instantiated on a concrete
2-by-2-tile lower-stored matrix with the pivot list [(1, 0)]. -/
theorem permuteRowsCols_preserves_hermitian_witness :
    fullAt (id : Int → Int)
        (permuteRowsColsF id (fun _ => 2) 2 .Forward [⟨1, 0⟩]
          (fun _ _ _ _ => (0 : Int))) (1, 1) (0, 0)
      = id (fullAt id (permuteRowsColsF id (fun _ => 2) 2 .Forward [⟨1, 0⟩]
          (fun _ _ _ _ => (0 : Int))) (0, 0) (1, 1)) :=
  (permuteRowsCols_preserves_hermitian (id : Int → Int) (fun _ => rfl)
    (fun _ => 2) 2 .Forward [⟨1, 0⟩] (fun _ _ _ _ => (0 : Int))
    (by decide)
    (by
      intro p hp
      rw [List.mem_singleton] at hp
      subst hp
      exact ⟨by decide, by decide⟩)
    (fun _ _ _ _ => rfl)).1
    (1, 1) (0, 0) (by decide) (by decide) (by decide) (by decide)

/-- C4 amended witness: nt = mt = 5, lookahead 0, step k = 1: the trailing
task exists and, with lookahead 0, conflicts with step 2's panel task. -/
theorem geqrf_step_task_graph_witness :
    (TaskDecl.mk (.trailing 1) 0 [(1, .depIn), (2, .depInout), (4, .depInout)]
      ∈ geqrfStepTasks 5 0 1) ∧
    conflicts ⟨.trailing 1, 0, [(1, .depIn), (2, .depInout), (4, .depInout)]⟩
              ⟨.panel 2, 1, [(2, .depInout)]⟩ = true := by
  have h := geqrf_step_task_graph 5 5 0 1 (by decide) (by decide)
  exact ⟨h.2.2.1, h.2.2.2.2.1.mpr (Or.inl rfl)⟩

end SlateV
